import Mathlib

/-!
Verification of the `write_versioned` transaction subsystem of the xoto3
repository, as a shallow embedding in Lean 4.

The embedding models Python objects by values:
  * DynamoDB attribute values become the inductive type `AV`
    (strings, integers, booleans, lists, maps, null);
  * Python `dict`s become insertion-ordered association lists
    (`List (k × v)`), with `alookup` (first match) and `pyInsert`
    (the semantics of a dict literal update, replacing in place or
    appending at the end);
  * exceptions become `Except`/`Option` results;
  * object identity ("returns the *same* transaction") is modelled by the
    function returning its input value along the source's `return transaction`
    branch; structural inequality of the result refutes identity.

Sources embedded (paths relative to the repository root):
  * xoto3/dynamodb/write_versioned/types.py      (`_TableData`, `VersionedTransaction`)
  * xoto3/dynamodb/write_versioned/transact/keys.py (`key_from_item`,
    `hashable_key`, `hashable_key_to_key`; the top-level
    write_versioned/keys.py module referenced by modify.py/specify.py is not
    present in the snapshot, but its older copy under transact/ is)
  * xoto3/dynamodb/write_versioned/modify.py      (`_write`, `put`, `delete`)
  * xoto3/dynamodb/write_versioned/specify.py     (`presume`, `define_table`)
  * xoto3/dynamodb/write_versioned/read.py        (`get`, `require`)
  * xoto3/dynamodb/write_versioned/prepare.py     (request parsing, clean
    transaction preparation, `add_item_to_base_request`,
    `all_items_for_next_attempt`)
  * xoto3/dynamodb/write_versioned/ddb_api.py     (commit request builder,
    retry classification)
  * xoto3/dynamodb/write_versioned/run.py         (lazy driver and run loop)
  * xoto3/dynamodb/write_versioned/retry.py       (`timed_retry`)
  * xoto3/dynamodb/utils/expressions.py           (`versioned_item_expression`)
  * xoto3/dynamodb/utils/truth.py                 (`dynamo_truthy`, `strip_falsy`)
  * xoto3/dynamodb/prewrite.py                    (`dynamodb_prewrite`)
  * xoto3/dynamodb/update/retry.py                (`is_conditional_update_retryable`)
-/

deriving instance DecidableEq for Except

namespace Xoto3

universe u v

/-! ## Python dict model: insertion-ordered association lists -/

/-- First-match lookup, the semantics of `d[k]` / `d.get(k)` on a Python dict
(whose keys are unique, so first match is the only match). -/
def alookup {α : Type u} {β : Type v} [DecidableEq α] : List (α × β) → α → Option β
  | [], _ => none
  | (k', v') :: rest, k => if k' = k then some v' else alookup rest k

/-- Key membership, the semantics of `k in d`. -/
def hasKey {α : Type u} {β : Type v} [DecidableEq α] (l : List (α × β)) (k : α) : Bool :=
  (alookup l k).isSome

/-- The semantics of building `{**d, k: v}`: an existing key keeps its
position and receives the new value, a new key is appended at the end. -/
def pyInsert {α : Type u} {β : Type v} [DecidableEq α] : List (α × β) → α → β → List (α × β)
  | [], k, v => [(k, v)]
  | (k', v') :: rest, k, v =>
      if k' = k then (k, v) :: rest else (k', v') :: pyInsert rest k v

theorem alookup_pyInsert_self {α : Type u} {β : Type v} [DecidableEq α]
    (l : List (α × β)) (k : α) (v : β) : alookup (pyInsert l k v) k = some v := by
  induction l with
  | nil => simp [pyInsert, alookup]
  | cons hd tl ih =>
      obtain ⟨k', v'⟩ := hd
      by_cases h : k' = k
      · simp [pyInsert, alookup, h]
      · simp [pyInsert, alookup, h, ih]

theorem alookup_pyInsert_ne {α : Type u} {β : Type v} [DecidableEq α]
    (l : List (α × β)) (k k' : α) (v : β) (h : k' ≠ k) :
    alookup (pyInsert l k v) k' = alookup l k' := by
  induction l with
  | nil =>
      simp only [pyInsert, alookup]
      rw [if_neg (Ne.symm h)]
  | cons hd tl ih =>
      obtain ⟨k₀, v₀⟩ := hd
      simp only [pyInsert]
      by_cases h₀ : k₀ = k
      · subst h₀
        rw [if_pos rfl]
        simp only [alookup]
        rw [if_neg (Ne.symm h), if_neg (Ne.symm h)]
      · rw [if_neg h₀]
        simp only [alookup]
        by_cases h₁ : k₀ = k'
        · rw [if_pos h₁, if_pos h₁]
        · rw [if_neg h₁, if_neg h₁, ih]

theorem hasKey_pyInsert {α : Type u} {β : Type v} [DecidableEq α]
    (l : List (α × β)) (k k' : α) (v : β) :
    hasKey (pyInsert l k v) k' = (decide (k' = k) || hasKey l k') := by
  by_cases h : k' = k
  · subst h; simp [hasKey, alookup_pyInsert_self]
  · simp [hasKey, alookup_pyInsert_ne l k k' v h, h]

/-! ## Attribute values -/

/-- A DynamoDB-storable attribute value: strings, integers, booleans, null,
and nested containers.  Container values are encoded as cons cells inside the
single inductive (`lnil`/`lcons` for lists, `mnil`/`mcons` for maps), which
keeps equality derivable; a Python list `[a, b]` is `lcons a (lcons b lnil)`
and a nested dict is an `mcons` chain.  Floats, sets, tuples, binary and
datetimes also exist in the Python value universe; the prewrite transforms
dispatched on those types act as identity on this universe, see
`dynamodb_prewrite`. -/
inductive AV : Type where
  | s (v : String)
  | n (v : Int)
  | b (v : Bool)
  | null
  | lnil
  | lcons (hd tl : AV)
  | mnil
  | mcons (key : String) (val tl : AV)
deriving DecidableEq

/-- An item: a Python dict from attribute name to value. -/
abbrev Item := List (String × AV)

/-- An item key: a dict of 1 or 2 key attributes. -/
abbrev ItemKey := List (String × AV)

/-- Python truthiness as used by `dynamo_truthy` (xoto3/dynamodb/utils/truth.py):
`bool(val) or (val == 0 and not isinstance(val, bool))`.  Empty strings, empty
collections, `None` and `False` are not "dynamo-truthy"; every number
(including 0) is kept. -/
def dynamo_truthy : AV → Bool
  | .s v => v ≠ ""
  | .n _ => true
  | .b v => v
  | .null => false
  | .lnil => false
  | .lcons _ _ => true
  | .mnil => false
  | .mcons _ _ _ => true

/-- Python truthiness proper (`bool(val)`), needed where the source tests a
value for truthiness (e.g. `id_that_exists`-style checks). -/
def avTruthy : AV → Bool
  | .s v => v ≠ ""
  | .n v => v ≠ 0
  | .b v => v
  | .null => false
  | .lnil => false
  | .lcons _ _ => true
  | .mnil => false
  | .mcons _ _ _ => true

/-! ## Sorting attribute names (`sorted(...)` on strings) -/

/-- Insert a string into a (sorted) list, preserving order. -/
def insertSorted (s : String) : List String → List String
  | [] => [s]
  | x :: xs => if s ≤ x then s :: x :: xs else x :: insertSorted s xs

/-- The semantics of Python `sorted` on a list of strings. -/
def sortStrings (l : List String) : List String :=
  l.foldr insertSorted []

theorem insertSorted_perm (s : String) (l : List String) :
    (insertSorted s l).Perm (s :: l) := by
  induction l with
  | nil => simp [insertSorted]
  | cons x xs ih =>
      by_cases h : s ≤ x
      · simp [insertSorted, h]
      · simp only [insertSorted, if_neg h]
        exact (ih.cons x).trans (List.Perm.swap s x xs)

theorem sortStrings_perm (l : List String) : (sortStrings l).Perm l := by
  induction l with
  | nil => simp [sortStrings]
  | cons x xs ih =>
      simpa [sortStrings] using (insertSorted_perm x (sortStrings xs)).trans (ih.cons x)

theorem mem_sortStrings (l : List String) (a : String) :
    a ∈ sortStrings l ↔ a ∈ l :=
  (sortStrings_perm l).mem_iff

theorem length_sortStrings (l : List String) :
    (sortStrings l).length = l.length :=
  (sortStrings_perm l).length_eq

/-! ## Keying (write_versioned keys module; the copy in src is transact/keys.py) -/

/-- The hashable representation of an item key: either the bare value of a
simplex key, or the pair of values of a 2-attribute key ordered by sorted
attribute name. -/
inductive HashableItemKey : Type where
  | one (v : AV)
  | two (v₁ v₂ : AV)
deriving DecidableEq

/-- Option-valued traversal of a list, failing when any element fails: the
semantics of a Python comprehension whose body may raise. -/
def mapMO {α : Type u} {β : Type v} (f : α → Option β) : List α → Option (List β)
  | [] => some []
  | a :: as =>
    match f a, mapMO f as with
    | some b, some bs => some (b :: bs)
    | _, _ => none

theorem mapMO_mem {α : Type u} {β : Type v} (f : α → Option β) {xs : List α}
    {ys : List β} {x : α} (h : mapMO f xs = some ys) (hx : x ∈ xs) :
    ∃ y, f x = some y ∧ y ∈ ys := by
  induction xs generalizing ys with
  | nil => cases hx
  | cons a as ih =>
      simp only [mapMO] at h
      cases hfa : f a with
      | none => rw [hfa] at h; cases h
      | some b =>
          rw [hfa] at h
          cases hrest : mapMO f as with
          | none => rw [hrest] at h; cases h
          | some bs =>
              rw [hrest] at h
              cases h
              rcases List.mem_cons.mp hx with hx | hx
              · exact ⟨b, hx ▸ hfa, List.mem_cons_self ..⟩
              · obtain ⟨y, hy, hmem⟩ := ih hrest hx
                exact ⟨y, hy, List.mem_cons_of_mem _ hmem⟩

/-- Embeds `key_from_item`: `{attr_name: item[attr_name] for attr_name in
sorted(key_attributes)}`; `none` models the KeyError raised when the item
lacks a key attribute. -/
def key_from_item (key_attributes : List String) (item : Item) : Option ItemKey :=
  mapMO (fun a => (alookup item a).map (fun v => (a, v))) (sortStrings key_attributes)

/-- Embeds `hashable_key`: a 1-attribute key yields its bare value; otherwise
the attribute names are sorted and asserted to number exactly 2 (`none`
models the AssertionError), and the pair of values is returned in that
order. -/
def hashable_key (key : ItemKey) : Option HashableItemKey :=
  match key with
  | [(_, v)] => some (.one v)
  | _ =>
    match sortStrings (key.map Prod.fst) with
    | [a₀, a₁] =>
      match alookup key a₀, alookup key a₁ with
      | some v₀, some v₁ => some (.two v₀ v₁)
      | _, _ => none
    | _ => none

/-- Embeds `hashable_key_to_key`; `none` models the arity-mismatch
AssertionErrors. -/
def hashable_key_to_key (key_attributes : List String) (hk : HashableItemKey) :
    Option ItemKey :=
  match hk with
  | .two v₁ v₂ =>
    match key_attributes with
    | [a₀, a₁] => some [(a₀, v₁), (a₁, v₂)]
    | _ => none
  | .one v =>
    match key_attributes with
    | [a₀] => some [(a₀, v)]
    | _ => none

/-- Embeds `prepare.standard_key_attributes_from_key`: the sorted tuple of an
ad hoc key's attribute names. -/
def standard_key_attributes_from_key (item_key : ItemKey) : List String :=
  sortStrings (item_key.map Prod.fst)

/-- Embeds `keys.standard_key_attributes` (referenced by specify.py from the
keys module, whose top-level copy is absent from the snapshot): the sorted
tuple of the given attribute names, consistent with
`standard_key_attributes_from_key` and with spec section 4.1. -/
def standard_key_attributes (attrs : List String) : List String :=
  sortStrings attrs

/-! ## Transaction state (types.py) -/

/-- Embeds `_TableData`: per-table snapshot baseline (`items`), pending write
effects (`effects`, `none` = delete), and the sorted key-attribute tuple. -/
structure TableData : Type where
  items : List (HashableItemKey × Option Item)
  effects : List (HashableItemKey × Option Item)
  key_attributes : List String
deriving DecidableEq

/-- Embeds `VersionedTransaction`: a mapping from table name to `TableData`. -/
structure VersionedTransaction : Type where
  tables : List (String × TableData)
deriving DecidableEq

/-- The exceptions a transaction builder can raise (write_versioned/errors.py
and xoto3/dynamodb/exceptions.py).  `itemUndefined` is the "not yet known"
control-flow signal (`ItemUndefinedException`, referred to as
`ItemNotYetFetchedError` by run.py and lazy_batch_gets.py); `keyError` and
`assertionError` model plain Python KeyError / AssertionError. -/
inductive BuildErr : Type where
  | itemUndefined (table_name : String) (key : ItemKey)
  | itemNotFound (table_name : String) (key : ItemKey)
  | tableSchemaUnknown
  | keyError
  | assertionError
deriving DecidableEq

/-! ## Prewrite sanitization (xoto3/dynamodb/prewrite.py, utils/truth.py,
utils/serde.py) -/

/-- Embeds `dynamodb_prewrite_empty_str_in_dict_to_null_transform`: replaces
empty-string values of the dict with None. -/
def dynamodb_prewrite_empty_str_in_dict_to_null_transform (item : Item) : Item :=
  item.map (fun kv => (kv.1, if kv.2 = AV.s "" then AV.null else kv.2))

/-- Embeds `strip_falsy` (utils/truth.py): keep only dynamo-truthy attribute
values. -/
def strip_falsy (item : Item) : Item :=
  item.filter (fun kv => dynamo_truthy kv.2)

/-- Embeds `dynamodb_prewrite` with the default active transform
(prewrite.py).  The default runs `map_tree` over the item with
type-dispatched transforms; on this embedding's value universe only the dict
transform acts, and it is wrapped in `make_path_only_transform(())` so it
fires only on the root dict: empty-string values become None, then falsy
attributes are stripped (`compose` applies right-to-left).  The float→Decimal,
tuple→list, set and datetime transforms dispatch on Python types outside this
universe, and nested containers pass through the tree walk unchanged. -/
def dynamodb_prewrite (item : Item) : Item :=
  strip_falsy (dynamodb_prewrite_empty_str_in_dict_to_null_transform item)

/-! ## Modify API (modify.py) -/

/-- Embeds the `Put`/`Delete` request named tuples of modify.py. -/
inductive PutOrDelete : Type where
  | put (item : Item)
  | delete (item_key : ItemKey)
deriving DecidableEq

/-- Embeds `ddb_api.known_key_schema`.  In the source this may perform a
DescribeTable I/O call (an external collaborator); when the schema cannot be
fetched the function logs a warning and returns the empty tuple (unknown).
The embedding models the offline behavior exercised by the repository's unit
tests: no schema is available. -/
def known_key_schema (_table : String) : List String := []

/-- The second half of `modify._write`: given the resolved
items/effects/key_attributes of the table, compute the item key (KeyError
when a key attribute is missing from a put item) and its hashable form
(AssertionError on bad arity), and return a new transaction with the effect
recorded over the existing tables. -/
def _write_effect (transaction : VersionedTransaction) (table_name : String)
    (put_or_delete : PutOrDelete) (items effects : List (HashableItemKey × Option Item))
    (key_attributes : List String) : Except BuildErr VersionedTransaction :=
  match put_or_delete with
  | .put item =>
    match key_from_item key_attributes item with
    | none => .error BuildErr.keyError
    | some item_key =>
      match hashable_key item_key with
      | none => .error BuildErr.assertionError
      | some hashable_item_key =>
        .ok ⟨pyInsert transaction.tables table_name
          ⟨items, pyInsert effects hashable_item_key (some item), key_attributes⟩⟩
  | .delete ik =>
    match key_from_item key_attributes ik with
    | none => .error BuildErr.keyError
    | some item_key =>
      match hashable_key item_key with
      | none => .error BuildErr.assertionError
      | some hashable_item_key =>
        .ok ⟨pyInsert transaction.tables table_name
          ⟨items, pyInsert effects hashable_item_key none, key_attributes⟩⟩

/-- Embeds `modify._write`, the shared put/delete implementation: resolve the
table's data — deriving `key_attributes` when the table is new, first from the
(external, here unavailable) `known_key_schema`, then for a delete by guessing
from the supplied key, raising TableSchemaUnknownError otherwise — then record
the effect (`_write_effect`). -/
def _write (transaction : VersionedTransaction) (table_name : String)
    (put_or_delete : PutOrDelete) : Except BuildErr VersionedTransaction :=
  match alookup transaction.tables table_name with
  | some td =>
      _write_effect transaction table_name put_or_delete td.items td.effects td.key_attributes
  | none =>
    let ka := known_key_schema table_name
    if ka.isEmpty then
      match put_or_delete with
      | .delete item_key =>
          if item_key.length > 2 then
            .error BuildErr.tableSchemaUnknown
          else
            _write_effect transaction table_name put_or_delete [] []
              (standard_key_attributes_from_key item_key)
      | .put _ => .error BuildErr.tableSchemaUnknown
    else
      _write_effect transaction table_name put_or_delete [] [] ka

/-- Embeds `modify.put`: sanitize via `dynamodb_prewrite` (default transform)
and record the put effect. -/
def put (transaction : VersionedTransaction) (table_name : String) (item : Item) :
    Except BuildErr VersionedTransaction :=
  _write transaction table_name (.put (dynamodb_prewrite item))

/-- Embeds `modify.delete`: record a delete effect for the item or key. -/
def delete (transaction : VersionedTransaction) (table_name : String)
    (item_or_key : ItemKey) : Except BuildErr VersionedTransaction :=
  _write transaction table_name (.delete item_or_key)

/-! ## Specify API (specify.py) -/

/-- The assertion loop of `specify.presume`: for every key attribute, the
non-nil value must carry the same attribute value (KeyError when absent,
AssertionError on mismatch). -/
def presume_assert_keys (iv : Item) : ItemKey → Except BuildErr Unit
  | [] => .ok ()
  | kv :: rest =>
    match alookup iv kv.1 with
    | none => .error BuildErr.keyError
    | some v =>
        if v = kv.2 then presume_assert_keys iv rest else .error BuildErr.assertionError

/-- The `table_data` resolution of `specify.presume`: the table's existing
data, or fresh empty data whose key schema is guessed from the presumed
key's attribute names. -/
def presume_table_data (transaction : VersionedTransaction) (table_name : String)
    (item_key : ItemKey) : TableData :=
  match alookup transaction.tables table_name with
  | some td => td
  | none => ⟨[], [], standard_key_attributes (item_key.map Prod.fst)⟩

/-- The recorded baseline value of `specify.presume`:
`dynamodb_prewrite(item_value) if item_value else None` — the prewrite runs
only on a truthy (non-None, non-empty) value. -/
def presume_value (item_value : Option Item) : Option Item :=
  match item_value with
  | some iv => if iv = [] then none else some (dynamodb_prewrite iv)
  | none => none

/-- Embeds `specify.presume`: declare a baseline value for an item.  The
value's key attributes are asserted to match the key; if the hashable key is
already present in the table's `items` the same transaction is returned,
otherwise a new transaction records the (prewritten) value as baseline. -/
def presume (transaction : VersionedTransaction) (table_name : String)
    (item_key : ItemKey) (item_value : Option Item) :
    Except BuildErr VersionedTransaction :=
  match (match item_value with
    | some iv => presume_assert_keys iv item_key
    | none => .ok ()) with
  | .error e => .error e
  | .ok _ =>
    match hashable_key item_key with
    | none => .error BuildErr.assertionError
    | some hkey =>
      if hasKey (presume_table_data transaction table_name item_key).items hkey then
        .ok transaction
      else
        .ok ⟨pyInsert transaction.tables table_name
          ⟨pyInsert (presume_table_data transaction table_name item_key).items hkey
              (presume_value item_value),
            (presume_table_data transaction table_name item_key).effects,
            (presume_table_data transaction table_name item_key).key_attributes⟩⟩

/-- Embeds `specify.define_table`: idempotently register a table's key
schema (1 or 2 attribute names, asserted); no-op when the table is already
present. -/
def define_table (transaction : VersionedTransaction) (table_name : String)
    (key_attributes : List String) : Except BuildErr VersionedTransaction :=
  if key_attributes.length = 0 ∨ 2 < key_attributes.length then
    .error BuildErr.assertionError
  else if hasKey transaction.tables table_name then
    .ok transaction
  else
    .ok ⟨pyInsert transaction.tables table_name
      ⟨[], [], standard_key_attributes key_attributes⟩⟩

/-! ## Read API (read.py) -/

/-- Embeds `read.get`: table unknown → `ItemUndefinedException`; an effect for
the key answers first (pending state, possibly `none` for a pending delete);
then the baseline; a key unknown to both raises `ItemUndefinedException`.
The `copy=True` deepcopy is the identity in value semantics. -/
def get (transaction : VersionedTransaction) (table_name : String)
    (item_key : ItemKey) : Except BuildErr (Option Item) :=
  match alookup transaction.tables table_name with
  | none => .error (.itemUndefined table_name item_key)
  | some td =>
    match hashable_key item_key with
    | none => .error BuildErr.assertionError
    | some hk =>
      match alookup td.effects hk with
      | some v => .ok v
      | none =>
        match alookup td.items hk with
        | none => .error (.itemUndefined table_name item_key)
        | some v => .ok v

/-- Embeds `read.require`: as `get`, but a falsy resolved value (None or the
empty dict) raises ItemNotFoundException; an `ItemUndefinedException` is
re-raised (the `force_immediate_fetch` flag it gains is consulted only by
lazy_batch_gets.py, not by run.py's driver). -/
def require (transaction : VersionedTransaction) (table_name : String)
    (item_key : ItemKey) : Except BuildErr Item :=
  match get transaction table_name item_key with
  | .ok (some item) =>
      if item = [] then .error (.itemNotFound table_name item_key) else .ok item
  | .ok none => .error (.itemNotFound table_name item_key)
  | .error e => .error e

/-! ## Condition expressions (xoto3/dynamodb/utils/expressions.py) -/

/-- The grammar of the DynamoDB ConditionExpression strings assembled by
`versioned_item_expression`: equality between an attribute-name reference
(`#n`) and an expression-value reference (`:v`), attribute existence tests,
and AND/OR (the source's parenthesized string concatenation is this tree). -/
inductive CondExpr : Type where
  | eqAttr (nameRef valRef : String)
  | attributeNotExists (nameRef : String)
  | attributeExists (nameRef : String)
  | and (a b : CondExpr)
  | or (a b : CondExpr)
deriving DecidableEq

/-- The dict returned by `versioned_item_expression`:
ExpressionAttributeNames, ExpressionAttributeValues, ConditionExpression. -/
structure VersionedExpr : Type where
  expressionAttributeNames : List (String × String)
  expressionAttributeValues : List (String × AV)
  conditionExpression : CondExpr
deriving DecidableEq

/-- Embeds `versioned_item_expression`.  The source signature types
`item_version` as int; at runtime it receives the stored attribute value
(`item.get(item_version_attribute, 0)`), so the embedding takes an `AV`.
Condition: `#itemVersion = :curItemVersion OR attribute_not_exists(#itemVersion)`,
the second disjunct strengthened to
`( attribute_not_exists(#itemVersion) AND attribute_exists(#idThatExists) )`
when a non-empty `id_that_exists` is supplied (which also registers the
`#idThatExists` name). -/
def versioned_item_expression (item_version : AV) (item_version_key : String)
    (id_that_exists : String) : VersionedExpr :=
  let expr_names := [("#itemVersion", item_version_key)]
  let expr_vals := [(":curItemVersion", item_version)]
  let item_version_condition := CondExpr.eqAttr "#itemVersion" ":curItemVersion"
  let first_time_version_condition := CondExpr.attributeNotExists "#itemVersion"
  if id_that_exists ≠ "" then
    ⟨pyInsert expr_names "#idThatExists" id_that_exists, expr_vals,
      .or item_version_condition
        (.and first_time_version_condition (.attributeExists "#idThatExists"))⟩
  else
    ⟨expr_names, expr_vals, .or item_version_condition first_time_version_condition⟩

/-- Look up an attribute of the currently stored state of an item (a missing
item has no attributes). -/
def storedAttr (stored : Option Item) (attr : String) : Option AV :=
  match stored with
  | none => none
  | some it => alookup it attr

/-- DynamoDB evaluation of a condition expression against the currently
stored state of the item, resolving `#`/`:` references through the
expression's environments (`none` models a dangling reference, which DynamoDB
would reject as a validation error). -/
def evalCond (names : List (String × String)) (vals : List (String × AV))
    (stored : Option Item) : CondExpr → Option Bool
  | .eqAttr nr vr =>
    match alookup names nr, alookup vals vr with
    | some attr, some v => some (decide (storedAttr stored attr = some v))
    | _, _ => none
  | .attributeNotExists nr =>
      (alookup names nr).map (fun attr => (storedAttr stored attr).isNone)
  | .attributeExists nr =>
      (alookup names nr).map (fun attr => (storedAttr stored attr).isSome)
  | .and a b =>
    match evalCond names vals stored a, evalCond names vals stored b with
    | some x, some y => some (x && y)
    | _, _ => none
  | .or a b =>
    match evalCond names vals stored a, evalCond names vals stored b with
    | some x, some y => some (x || y)
    | _, _ => none

/-- Evaluate a `VersionedExpr` against a stored item state. -/
def evalVersionedExpr (e : VersionedExpr) (stored : Option Item) : Option Bool :=
  evalCond e.expressionAttributeNames e.expressionAttributeValues stored
    e.conditionExpression

/-! ## Commit request builder (ddb_api.py) -/

/-- Embeds `serialize_item`: boto3's TypeSerializer, an external bijective
encoding into the wire format; the embedding keeps items in deserialized form,
so it is the identity. -/
def serialize_item (d : Item) : Item := d

/-- Embeds `_serialize_versioned_expr`: serialize the expression's attribute
values. -/
def _serialize_versioned_expr (e : VersionedExpr) : VersionedExpr :=
  ⟨e.expressionAttributeNames, serialize_item e.expressionAttributeValues,
    e.conditionExpression⟩

/-- A member of the `TransactItems` list: `Put`, `Delete` or
`ConditionCheck`, each carrying its table name, payload and condition. -/
inductive TransactItem : Type where
  | put (tableName : String) (item : Item) (cond : VersionedExpr)
  | delete (tableName : String) (key : ItemKey) (cond : VersionedExpr)
  | conditionCheck (tableName : String) (key : ItemKey) (cond : VersionedExpr)
deriving DecidableEq

/-- Embeds the closure `get_existing_item`: `items.get(hashable_key) or dict()`. -/
def get_existing_item (items : List (HashableItemKey × Option Item))
    (hk : HashableItemKey) : Item :=
  match alookup items hk with
  | some (some i) => i
  | _ => []

/-- Embeds the closure `put_or_delete_item`: look up the existing item for
the effect's key, take `expected_version = item.get(item_version_attribute, 0)`,
build the versioned condition (naming the first key attribute as
`id_that_exists` when the item currently exists), and emit a conditional
Delete (for a `none` effect) keyed by the item's key, or a conditional Put of
the effect merged with the `last_written_at` timestamp and
`item_version = expected_version + 1`.  `none` models the IndexError on an
empty `key_attributes`, the AssertionError inside `hashable_key_to_key`, and
the TypeError of `expected_version + 1` on a non-numeric stored version. -/
def put_or_delete_item (table_name : String)
    (items : List (HashableItemKey × Option Item)) (key_attributes : List String)
    (item_version_attribute last_written_attribute last_written_at_str : String)
    (item_hashable_key : HashableItemKey) (effect : Option Item) :
    Option TransactItem :=
  let item := get_existing_item items item_hashable_key
  let expected_version : AV := (alookup item item_version_attribute).getD (.n 0)
  let id_that_exists : Option String :=
    if item ≠ [] then key_attributes.head? else some ""
  match id_that_exists with
  | none => none
  | some id₀ =>
    let expression_expecting_item_version :=
      _serialize_versioned_expr
        (versioned_item_expression expected_version item_version_attribute id₀)
    match effect with
    | none =>
      (hashable_key_to_key key_attributes item_hashable_key).map (fun key =>
        .delete table_name (serialize_item key) expression_expecting_item_version)
    | some eff =>
      match expected_version with
      | .n v =>
          some (.put table_name
            (serialize_item
              (pyInsert (pyInsert eff last_written_attribute (.s last_written_at_str))
                item_version_attribute (.n (v + 1))))
            expression_expecting_item_version)
      | _ => none

/-- Python truthiness of an `Optional[Item]`: present and non-empty. -/
def opt_item_truthy : Option Item → Bool
  | some i => i ≠ []
  | none => false

/-- Embeds the closure `item_remains_unmodified`: a ConditionCheck keyed by
the item's key, expecting the item's currently-known version (and, when the
item currently exists, the existence of its first key attribute). -/
def item_remains_unmodified (table_name : String)
    (items : List (HashableItemKey × Option Item)) (key_attributes : List String)
    (item_version_attribute : String) (item_hashable_key : HashableItemKey)
    (item : Option Item) : Option TransactItem :=
  let expected_version : AV :=
    (alookup (get_existing_item items item_hashable_key) item_version_attribute).getD (.n 0)
  let id_that_exists : Option String :=
    if opt_item_truthy item then key_attributes.head? else some ""
  match id_that_exists with
  | none => none
  | some id₀ =>
    (hashable_key_to_key key_attributes item_hashable_key).map (fun key =>
      .conditionCheck table_name (serialize_item key)
        (_serialize_versioned_expr
          (versioned_item_expression expected_version item_version_attribute id₀)))

/-- The per-table portion of `built_transaction_to_transact_write_items_args`:
one Put/Delete per recorded effect (in effects order), then one
ConditionCheck per baseline-known item that records no effect (in items
order) — in the source the effects list comprehension runs first, filling
`keys_of_items_to_be_modified`. -/
def built_table_items (table_name : String) (td : TableData)
    (last_written_at_str item_version_attribute last_written_attribute : String) :
    Option (List TransactItem) :=
  match mapMO (fun he =>
      put_or_delete_item table_name td.items td.key_attributes
        item_version_attribute last_written_attribute last_written_at_str he.1 he.2)
      td.effects with
  | none => none
  | some effect_entries =>
    let keys_of_items_to_be_modified := td.effects.map Prod.fst
    match mapMO (fun hi =>
        item_remains_unmodified table_name td.items td.key_attributes
          item_version_attribute hi.1 hi.2)
        (td.items.filter (fun hi => !(keys_of_items_to_be_modified.contains hi.1))) with
    | none => none
    | some unmodified_entries => some (effect_entries ++ unmodified_entries)

/-- Embeds `built_transaction_to_transact_write_items_args` (the current
ddb_api.py signature: transaction, last_written_at_str, then the two
attribute names, whose source defaults are "item_version" and
"last_written_at").  Returns the `TransactItems` list. -/
def built_transaction_to_transact_write_items_args
    (transaction : VersionedTransaction) (last_written_at_str : String)
    (item_version_attribute last_written_attribute : String) :
    Option (List TransactItem) :=
  (mapMO (fun te =>
      built_table_items te.1 te.2 last_written_at_str item_version_attribute
        last_written_attribute) transaction.tables).map List.flatten

/-! ## Retry classification (ddb_api.py, update/retry.py, xoto3/errors.py) -/

/-- The relevant content of a botocore ClientError response: the error code
(`response["Error"]["Code"]`) and the per-item cancellation reason codes
(`response["Error"].get("CancellationReasons", ())`, as read by
`_collect_codes`; absent reasons are the empty list). -/
structure ClientError : Type where
  code : String
  cancellationReasons : List String
deriving DecidableEq

/-- Embeds `client_error_name`. -/
def client_error_name (ce : ClientError) : String := ce.code

/-- Embeds `_KNOWN_RETRYABLE_UPDATE_ERRORS` (update/retry.py). -/
def _KNOWN_RETRYABLE_UPDATE_ERRORS : List String :=
  ["TransactionConflictException", "ConditionalCheckFailedException"]

/-- Embeds `is_conditional_update_retryable` (update/retry.py). -/
def is_conditional_update_retryable (ce : ClientError) : Bool :=
  _KNOWN_RETRYABLE_UPDATE_ERRORS.contains (client_error_name ce)

/-- Embeds `_RetryableTransactionCancelledErrorCodes`. -/
def _RetryableTransactionCancelledErrorCodes : List String :=
  ["ConditionalCheckFailed", "TransactionConflict", "ThrottlingError",
    "ProvisionedThroughputExceeded"]

/-- Embeds `_is_transaction_failed_and_retryable`: an in-progress transaction
is retryable; a cancelled transaction is retryable when the collected
cancellation codes are a subset of the retryable set. -/
def _is_transaction_failed_and_retryable (ce : ClientError) : Bool :=
  if client_error_name ce = "TransactionInProgressException" then true
  else if client_error_name ce = "TransactionCanceledException" then
    ce.cancellationReasons.all (fun c => _RetryableTransactionCancelledErrorCodes.contains c)
  else false

/-- Embeds `is_cancelled_and_retryable`, the default retry classifier of
`versioned_transact_write_items`. -/
def is_cancelled_and_retryable (ce : ClientError) : Bool :=
  is_conditional_update_retryable ce || _is_transaction_failed_and_retryable ce

/-! ## Semantics of the emitted conditions -/

theorem evalVersionedExpr_versioned (ev : AV) (ivk id₀ : String) (stored : Option Item) :
    evalVersionedExpr (_serialize_versioned_expr (versioned_item_expression ev ivk id₀))
        stored =
      some ((decide (storedAttr stored ivk = some ev)) ||
        ((storedAttr stored ivk).isNone &&
          (if id₀ = "" then true else (storedAttr stored id₀).isSome))) := by
  by_cases hid : id₀ = ""
  · simp [versioned_item_expression, _serialize_versioned_expr, serialize_item,
      evalVersionedExpr, evalCond, alookup, hid]
  · simp [versioned_item_expression, _serialize_versioned_expr, serialize_item,
      evalVersionedExpr, evalCond, alookup, pyInsert, hid]

/-! ## Shape of the emitted per-item operations -/

theorem put_or_delete_item_put_eq (tname : String)
    (items : List (HashableItemKey × Option Item)) (ka : List String)
    (ivk lwk ts : String) (hk : HashableItemKey) (eff : Item)
    (entry : TransactItem) (k₀ : String) (hka : ka.head? = some k₀)
    (h : put_or_delete_item tname items ka ivk lwk ts hk (some eff) = some entry) :
    ∃ v, (alookup (get_existing_item items hk) ivk).getD (.n 0) = .n v ∧
      entry = .put tname
        (serialize_item (pyInsert (pyInsert eff lwk (.s ts)) ivk (.n (v + 1))))
        (_serialize_versioned_expr (versioned_item_expression (.n v) ivk
          (if get_existing_item items hk = [] then "" else k₀))) := by
  by_cases hitem : get_existing_item items hk = []
  · refine ⟨0, by rw [hitem]; rfl, ?_⟩
    rw [if_pos hitem]
    simp only [put_or_delete_item, hitem] at h
    simp [alookup] at h
    exact h.symm
  · rw [if_neg hitem]
    simp only [put_or_delete_item] at h
    rw [if_pos hitem, hka] at h
    dsimp only at h
    split at h
    · next v hev =>
        injection h with h2
        exact ⟨v, hev, by rw [← h2, hev]⟩
    · next x hnev => cases h

theorem put_or_delete_item_delete_eq (tname : String)
    (items : List (HashableItemKey × Option Item)) (ka : List String)
    (ivk lwk ts : String) (hk : HashableItemKey)
    (entry : TransactItem) (k₀ : String) (hka : ka.head? = some k₀)
    (h : put_or_delete_item tname items ka ivk lwk ts hk none = some entry) :
    ∃ key, hashable_key_to_key ka hk = some key ∧
      entry = .delete tname (serialize_item key)
        (_serialize_versioned_expr (versioned_item_expression
          ((alookup (get_existing_item items hk) ivk).getD (.n 0)) ivk
          (if get_existing_item items hk = [] then "" else k₀))) := by
  by_cases hitem : get_existing_item items hk = []
  · rw [if_pos hitem]
    simp only [put_or_delete_item] at h
    rw [hitem] at h
    rw [if_neg (by simp)] at h
    dsimp only at h
    cases hkey : hashable_key_to_key ka hk with
    | none => rw [hkey] at h; cases h
    | some key =>
        rw [hkey] at h
        injection h with h2
        exact ⟨key, rfl, by rw [hitem, ← h2]⟩
  · rw [if_neg hitem]
    simp only [put_or_delete_item] at h
    rw [if_pos hitem, hka] at h
    dsimp only at h
    cases hkey : hashable_key_to_key ka hk with
    | none => rw [hkey] at h; cases h
    | some key => rw [hkey] at h; injection h with h2; exact ⟨key, rfl, h2.symm⟩

theorem item_remains_unmodified_eq (tname : String)
    (items : List (HashableItemKey × Option Item)) (ka : List String)
    (ivk : String) (hk : HashableItemKey) (item : Option Item)
    (entry : TransactItem) (k₀ : String) (hka : ka.head? = some k₀)
    (h : item_remains_unmodified tname items ka ivk hk item = some entry) :
    ∃ key, hashable_key_to_key ka hk = some key ∧
      entry = .conditionCheck tname (serialize_item key)
        (_serialize_versioned_expr (versioned_item_expression
          ((alookup (get_existing_item items hk) ivk).getD (.n 0)) ivk
          (if opt_item_truthy item then k₀ else ""))) := by
  cases htr : opt_item_truthy item with
  | true =>
      rw [if_pos rfl]
      simp only [item_remains_unmodified] at h
      rw [htr, if_pos rfl, hka] at h
      dsimp only at h
      cases hkey : hashable_key_to_key ka hk with
      | none => rw [hkey] at h; cases h
      | some key => rw [hkey] at h; injection h with h2; exact ⟨key, rfl, h2.symm⟩
  | false =>
      rw [if_neg (by simp)]
      simp only [item_remains_unmodified] at h
      rw [htr, if_neg (by simp)] at h
      dsimp only at h
      cases hkey : hashable_key_to_key ka hk with
      | none => rw [hkey] at h; cases h
      | some key => rw [hkey] at h; injection h with h2; exact ⟨key, rfl, h2.symm⟩

/-- Decomposition of a successful `built_transaction_to_transact_write_items_args`
for one table entry: the per-effect operations and the condition-only checks
both succeed, and every operation among them is in the final request. -/
theorem built_args_table_mem (tx : VersionedTransaction)
    (ts ivk lwk : String) (L : List TransactItem)
    (hL : built_transaction_to_transact_write_items_args tx ts ivk lwk = some L)
    (t : String) (td : TableData) (hmem : (t, td) ∈ tx.tables) :
    ∃ ef um,
      mapMO (fun he => put_or_delete_item t td.items td.key_attributes
        ivk lwk ts he.1 he.2) td.effects = some ef ∧
      mapMO (fun hi => item_remains_unmodified t td.items td.key_attributes
          ivk hi.1 hi.2)
        (td.items.filter (fun hi =>
          !((td.effects.map Prod.fst).contains hi.1))) = some um ∧
      ∀ x, x ∈ ef ++ um → x ∈ L := by
  unfold built_transaction_to_transact_write_items_args at hL
  cases hmm : mapMO (fun te => built_table_items te.1 te.2 ts ivk lwk) tx.tables with
  | none => rw [hmm] at hL; cases hL
  | some LL =>
      rw [hmm] at hL
      injection hL with hL2
      obtain ⟨tl, htl, htlmem⟩ := mapMO_mem _ hmm hmem
      unfold built_table_items at htl
      cases hef : mapMO (fun he => put_or_delete_item t td.items td.key_attributes
          ivk lwk ts he.1 he.2) td.effects with
      | none => rw [hef] at htl; cases htl
      | some ef =>
          rw [hef] at htl
          dsimp only at htl
          cases hum : mapMO (fun hi => item_remains_unmodified t td.items
              td.key_attributes ivk hi.1 hi.2)
              (td.items.filter (fun hi =>
                !((td.effects.map Prod.fst).contains hi.1))) with
          | none => rw [hum] at htl; cases htl
          | some um =>
              rw [hum] at htl
              injection htl with htl2
              refine ⟨ef, um, rfl, rfl, ?_⟩
              intro x hx
              rw [← hL2]
              exact List.mem_flatten.mpr ⟨tl, htlmem, htl2 ▸ hx⟩

/-! ## Concrete fixtures used by the claim theorems -/

/-- The item of ddb_api_test.test_built_transaction_does_not_write_deep_equal_items. -/
def itemSteve : Item := [("id", .s "steve"), ("val", .n 3)]

/-- The key of `itemSteve`. -/
def keySteve : ItemKey := [("id", .s "steve")]

/-- The hashable form of `keySteve`. -/
def hkSteve : HashableItemKey := .one (.s "steve")

/-- The transaction after `presume({"id": "steve"}, itemSteve)` on the empty
transaction (table "Foo" with `itemSteve` as baseline, no effects). -/
def txSteve1 : VersionedTransaction :=
  ⟨[("Foo", ⟨[(hkSteve, some itemSteve)], [], ["id"]⟩)]⟩

/-- The transaction after additionally `put`ting the deeply-equal
`itemSteve`: the redundant effect is recorded. -/
def txSteve2 : VersionedTransaction :=
  ⟨[("Foo", ⟨[(hkSteve, some itemSteve)], [(hkSteve, some itemSteve)], ["id"]⟩)]⟩

/-- The wire item of the Put emitted for `txSteve2`: the effect merged with
the timestamp and the bumped version. -/
def putItemSteve : Item :=
  [("id", .s "steve"), ("val", .n 3), ("last_written_at", .s "ts0"),
    ("item_version", .n 1)]

/-- A transaction whose table "T" knows `keySteve` only through a recorded
put effect (no baseline knowledge in `items`). -/
def txEffOnly : VersionedTransaction :=
  ⟨[("T", ⟨[], [(hkSteve, some itemSteve)], ["id"]⟩)]⟩

/-- A transaction whose table "T" records a pending delete effect for
`keySteve` and has no baseline knowledge of it. -/
def txDelEff : VersionedTransaction :=
  ⟨[("T", ⟨[], [(hkSteve, none)], ["id"]⟩)]⟩

/-- The result of `presume(txDelEff, "T", keySteve, None)`: a new
transaction whose baseline now records the key as known-absent. -/
def txDelEffAfter : VersionedTransaction :=
  ⟨[("T", ⟨[(hkSteve, none)], [(hkSteve, none)], ["id"]⟩)]⟩

/-! ## C1 — put of a deeply-equal item -/

/-- C1: the claim says a `put` whose sanitized item deeply equals the
currently resolved value is a no-op returning the same transaction object.
The code records the effect unconditionally: in the exact scenario of
ddb_api_test.test_built_transaction_does_not_write_deep_equal_items
(presume an item, then put the identical item), `put` returns a different
transaction carrying a put effect, and the commit request builder emits a
conditional (version-bumping) Put — where that test asserts a single
ConditionCheck and no Put. -/
theorem put_deep_equal_records_put_effect :
    presume ⟨[]⟩ "Foo" keySteve (some itemSteve) = .ok txSteve1 ∧
    get txSteve1 "Foo" keySteve = .ok (some itemSteve) ∧
    dynamodb_prewrite itemSteve = itemSteve ∧
    put txSteve1 "Foo" itemSteve = .ok txSteve2 ∧
    txSteve2 ≠ txSteve1 ∧
    built_transaction_to_transact_write_items_args txSteve2 "ts0" "item_version"
        "last_written_at" =
      some [TransactItem.put "Foo" putItemSteve
        (versioned_item_expression (.n 0) "item_version" "id")] := by
  decide

/-! ## C3 and C4 — the commit request builder -/

/-- The item existing in table "Common" under the key to be deleted
(ddb_api_test.test_built_transaction_includes_unmodified). -/
def itemDel : Item := [("id", .s "delete"), ("val", .n 4)]

/-- Hashable key of `itemDel`. -/
def hkDel : HashableItemKey := .one (.s "delete")

/-- Hashable key of the read-but-unmodified item of the same test. -/
def hkUnmod : HashableItemKey := .one (.s "unmodified")

/-- The built transaction of
ddb_api_test.test_built_transaction_includes_unmodified: one fetched item
to be deleted, one key read as absent and left unmodified. -/
def txCommon : VersionedTransaction :=
  ⟨[("Common", ⟨[(hkUnmod, none), (hkDel, some itemDel)], [(hkDel, none)], ["id"]⟩)]⟩

/-- The table data of `txCommon`'s "Common" table. -/
def tdCommon : TableData :=
  ⟨[(hkUnmod, none), (hkDel, some itemDel)], [(hkDel, none)], ["id"]⟩

/-- The request built from `txCommon`: a conditional Delete for the effect,
then a condition-only check for the unmodified item — exactly the two
operations the repository's test asserts. -/
def LCommonItems : List TransactItem :=
  [.delete "Common" [("id", .s "delete")]
      (versioned_item_expression (.n 0) "item_version" "id"),
   .conditionCheck "Common" [("id", .s "unmodified")]
      (versioned_item_expression (.n 0) "item_version" "")]

/-- C3: for every item with a non-None (put) effect, the commit request
builder emits a conditional Put whose item is the effect merged with
`item_version = expected_version + 1` and `last_written_at = ` the commit
timestamp, where `expected_version` is the item's last-known version (0 when
the item did not previously exist); for a None (delete) effect it emits a
conditional Delete keyed by the item's key.  Both carry the condition
"stored version = expected_version OR (version attribute absent AND, if the
item is known to currently exist, the (first) key attribute exists)", here
stated by evaluating the emitted condition expression against every possible
stored item state. -/
theorem built_args_put_delete_per_effect
    (tx : VersionedTransaction) (ts ivk lwk : String) (L : List TransactItem)
    (hL : built_transaction_to_transact_write_items_args tx ts ivk lwk = some L)
    (t : String) (td : TableData) (hmem : (t, td) ∈ tx.tables)
    (k₀ : String) (hka : td.key_attributes.head? = some k₀) (hk0 : k₀ ≠ "")
    (hnames : ivk ≠ lwk) :
    (∀ hk eff, (hk, some eff) ∈ td.effects →
      ∃ v merged,
        (alookup (get_existing_item td.items hk) ivk).getD (.n 0) = .n v ∧
        TransactItem.put t merged
          (_serialize_versioned_expr (versioned_item_expression (.n v) ivk
            (if get_existing_item td.items hk = [] then "" else k₀))) ∈ L ∧
        alookup merged ivk = some (.n (v + 1)) ∧
        alookup merged lwk = some (.s ts) ∧
        (∀ a, a ≠ ivk → a ≠ lwk → alookup merged a = alookup eff a) ∧
        (∀ stored,
          evalVersionedExpr
            (_serialize_versioned_expr (versioned_item_expression (.n v) ivk
              (if get_existing_item td.items hk = [] then "" else k₀))) stored =
          some ((decide (storedAttr stored ivk = some (AV.n v))) ||
            ((storedAttr stored ivk).isNone &&
              (if get_existing_item td.items hk = [] then true
               else (storedAttr stored k₀).isSome))))) ∧
    (∀ hk, (hk, (none : Option Item)) ∈ td.effects →
      ∃ key,
        hashable_key_to_key td.key_attributes hk = some key ∧
        TransactItem.delete t key
          (_serialize_versioned_expr (versioned_item_expression
            ((alookup (get_existing_item td.items hk) ivk).getD (.n 0)) ivk
            (if get_existing_item td.items hk = [] then "" else k₀))) ∈ L ∧
        (∀ stored,
          evalVersionedExpr
            (_serialize_versioned_expr (versioned_item_expression
              ((alookup (get_existing_item td.items hk) ivk).getD (.n 0)) ivk
              (if get_existing_item td.items hk = [] then "" else k₀))) stored =
          some ((decide (storedAttr stored ivk =
              some ((alookup (get_existing_item td.items hk) ivk).getD (.n 0)))) ||
            ((storedAttr stored ivk).isNone &&
              (if get_existing_item td.items hk = [] then true
               else (storedAttr stored k₀).isSome))))) := by
  obtain ⟨ef, um, hef, hum, hsub⟩ := built_args_table_mem tx ts ivk lwk L hL t td hmem
  constructor
  · intro hk eff hin
    obtain ⟨entry, hentry, hentrymem⟩ := mapMO_mem _ hef hin
    obtain ⟨v, hv, hEq⟩ :=
      put_or_delete_item_put_eq t td.items td.key_attributes ivk lwk ts hk eff
        entry k₀ hka hentry
    simp only [serialize_item] at hEq
    refine ⟨v, pyInsert (pyInsert eff lwk (.s ts)) ivk (.n (v + 1)), hv, ?_, ?_, ?_, ?_, ?_⟩
    · rw [← hEq]
      exact hsub entry (List.mem_append_left um hentrymem)
    · exact alookup_pyInsert_self ..
    · rw [alookup_pyInsert_ne _ _ _ _ (Ne.symm hnames)]
      exact alookup_pyInsert_self ..
    · intro a ha1 ha2
      rw [alookup_pyInsert_ne _ _ _ _ ha1, alookup_pyInsert_ne _ _ _ _ ha2]
    · intro stored
      rw [evalVersionedExpr_versioned]
      by_cases hitem : get_existing_item td.items hk = [] <;> simp [hitem, hk0]
  · intro hk hin
    obtain ⟨entry, hentry, hentrymem⟩ := mapMO_mem _ hef hin
    obtain ⟨key, hkey, hEq⟩ :=
      put_or_delete_item_delete_eq t td.items td.key_attributes ivk lwk ts hk
        entry k₀ hka hentry
    simp only [serialize_item] at hEq
    refine ⟨key, hkey, ?_, ?_⟩
    · rw [← hEq]
      exact hsub entry (List.mem_append_left um hentrymem)
    · intro stored
      rw [evalVersionedExpr_versioned]
      by_cases hitem : get_existing_item td.items hk = [] <;> simp [hitem, hk0]

/-- Witness for `built_args_put_delete_per_effect` at concrete inputs: the
Delete of the repository's own test transaction (`txCommon`) and the Put of
the deep-equal-put transaction (`txSteve2`). -/
theorem built_args_put_delete_per_effect_witness :
    (TransactItem.delete "Common" [("id", AV.s "delete")]
        (versioned_item_expression (.n 0) "item_version" "id") ∈ LCommonItems) ∧
    (∃ merged,
      TransactItem.put "Foo" merged
          (versioned_item_expression (.n 0) "item_version" "id") ∈
        [TransactItem.put "Foo" putItemSteve
          (versioned_item_expression (.n 0) "item_version" "id")] ∧
      alookup merged "item_version" = some (.n 1)) := by
  constructor
  · obtain ⟨key, hkey, hmem2, _⟩ :=
      (built_args_put_delete_per_effect txCommon "adatetimestring" "item_version"
        "last_written_at" LCommonItems (by decide) "Common" tdCommon
        (by decide) "id" (by decide) (by decide) (by decide)).2 hkDel (by decide)
    have hkeyval : hashable_key_to_key tdCommon.key_attributes hkDel =
        some [("id", AV.s "delete")] := by decide
    injection hkey.symm.trans hkeyval with hkey2
    subst hkey2
    exact hmem2
  · obtain ⟨v, merged, hv, hmem2, hivk, _, _, _⟩ :=
      (built_args_put_delete_per_effect txSteve2 "ts0" "item_version"
        "last_written_at"
        [TransactItem.put "Foo" putItemSteve
          (versioned_item_expression (.n 0) "item_version" "id")]
        (by decide) "Foo" ⟨[(hkSteve, some itemSteve)], [(hkSteve, some itemSteve)], ["id"]⟩
        (by decide) "id" (by decide) (by decide) (by decide)).1 hkSteve itemSteve
        (by decide)
    injection hv with hv2
    subst hv2
    exact ⟨merged, hmem2, hivk⟩

/-- C4: for every item present in a table's baseline snapshot with no
recorded effect, the builder emits a condition-only ConditionCheck keyed by
that item's key, under the same version-match condition at the item's
currently-known version; consequently the check evaluates to false against
any stored state whose version attribute differs from the known version
(e.g. after a concurrent modification). -/
theorem built_args_condition_check_per_unmodified
    (tx : VersionedTransaction) (ts ivk lwk : String) (L : List TransactItem)
    (hL : built_transaction_to_transact_write_items_args tx ts ivk lwk = some L)
    (t : String) (td : TableData) (hmem : (t, td) ∈ tx.tables)
    (k₀ : String) (hka : td.key_attributes.head? = some k₀) (hk0 : k₀ ≠ "") :
    ∀ hk item, (hk, item) ∈ td.items →
      (td.effects.map Prod.fst).contains hk = false →
      ∃ key,
        hashable_key_to_key td.key_attributes hk = some key ∧
        TransactItem.conditionCheck t key
          (_serialize_versioned_expr (versioned_item_expression
            ((alookup (get_existing_item td.items hk) ivk).getD (.n 0)) ivk
            (if opt_item_truthy item then k₀ else ""))) ∈ L ∧
        (∀ stored,
          evalVersionedExpr
            (_serialize_versioned_expr (versioned_item_expression
              ((alookup (get_existing_item td.items hk) ivk).getD (.n 0)) ivk
              (if opt_item_truthy item then k₀ else ""))) stored =
          some ((decide (storedAttr stored ivk =
              some ((alookup (get_existing_item td.items hk) ivk).getD (.n 0)))) ||
            ((storedAttr stored ivk).isNone &&
              (if opt_item_truthy item then (storedAttr stored k₀).isSome else true)))) ∧
        (∀ stored v2, storedAttr stored ivk = some v2 →
          v2 ≠ (alookup (get_existing_item td.items hk) ivk).getD (.n 0) →
          evalVersionedExpr
            (_serialize_versioned_expr (versioned_item_expression
              ((alookup (get_existing_item td.items hk) ivk).getD (.n 0)) ivk
              (if opt_item_truthy item then k₀ else ""))) stored = some false) := by
  obtain ⟨ef, um, hef, hum, hsub⟩ := built_args_table_mem tx ts ivk lwk L hL t td hmem
  intro hk item hin hcont
  have hp : (!((td.effects.map Prod.fst).contains hk)) = true := by
    rw [hcont]; rfl
  have hfil : (hk, item) ∈ td.items.filter (fun hi =>
      !((td.effects.map Prod.fst).contains hi.1)) :=
    List.mem_filter.mpr ⟨hin, hp⟩
  obtain ⟨entry, hentry, hentrymem⟩ := mapMO_mem _ hum hfil
  obtain ⟨key, hkey, hEq⟩ :=
    item_remains_unmodified_eq t td.items td.key_attributes ivk hk item entry k₀
      hka hentry
  simp only [serialize_item] at hEq
  refine ⟨key, hkey, ?_, ?_, ?_⟩
  · rw [← hEq]
    exact hsub entry (List.mem_append_right ef hentrymem)
  · intro stored
    rw [evalVersionedExpr_versioned]
    cases htr : opt_item_truthy item <;> simp [hk0]
  · intro stored v2 hv2 hne
    rw [evalVersionedExpr_versioned]
    cases htr : opt_item_truthy item <;> simp [hv2, hne, hk0]

/-- Witness for `built_args_condition_check_per_unmodified` at the concrete
`txCommon`: the unmodified item receives a ConditionCheck, and that check
evaluates to false against a concurrently-modified stored state (version 5
instead of the known 0). -/
theorem built_args_condition_check_witness :
    (∃ key, hashable_key_to_key (["id"] : List String) hkUnmod = some key ∧
      TransactItem.conditionCheck "Common" key
        (versioned_item_expression (.n 0) "item_version" "") ∈ LCommonItems) ∧
    evalVersionedExpr (versioned_item_expression (.n 0) "item_version" "")
      (some [("id", .s "unmodified"), ("item_version", .n 5)]) = some false := by
  obtain ⟨key, hkey, hmem2, hsem, hfail⟩ :=
    built_args_condition_check_per_unmodified txCommon "adatetimestring"
      "item_version" "last_written_at" LCommonItems (by decide) "Common" tdCommon
      (by decide) "id" (by decide) (by decide) hkUnmod none (by decide) (by decide)
  refine ⟨⟨key, hkey, hmem2⟩, ?_⟩
  exact hfail (some [("id", .s "unmodified"), ("item_version", .n 5)]) (.n 5)
    (by decide) (by decide)

/-! ## C6 — resolution order of `get` -/

/-- Formalization of C6's wording, read as the ordered case analysis it
describes: get signals NotYetKnown when the table is unknown to the
transaction or the key is unknown within that table's `items`; *then* an
effect, when present, answers; otherwise the baseline snapshot value. -/
def get_per_claim (transaction : VersionedTransaction) (table_name : String)
    (item_key : ItemKey) : Except BuildErr (Option Item) :=
  match alookup transaction.tables table_name with
  | none => .error (.itemUndefined table_name item_key)
  | some td =>
    match hashable_key item_key with
    | none => .error BuildErr.assertionError
    | some hk =>
      match alookup td.items hk with
      | none => .error (.itemUndefined table_name item_key)
      | some baseline =>
        match alookup td.effects hk with
        | some v => .ok v
        | none => .ok baseline

/-- C6 counterexample: for a key known only through an effect (recorded by a
put on a previously unfetched key), the code's `get` returns the effect's
value, while the claim's wording — the key being unknown within the table's
`items` — demands a NotYetKnown signal. -/
theorem get_effect_only_key_contradicts_claim :
    (alookup txEffOnly.tables "T").map (fun td => hasKey td.items hkSteve) =
      some false ∧
    get txEffOnly "T" keySteve = .ok (some itemSteve) ∧
    get_per_claim txEffOnly "T" keySteve =
      .error (.itemUndefined "T" keySteve) := by
  decide

/-- C6 amended: `get` signals NotYetKnown when the table is unknown, or when
the key has no recorded effect *and* is unknown within the table's `items`;
an effect, when present, answers first (possibly `none` for a pending
delete, and even when the key is absent from `items`); otherwise the
baseline snapshot value is returned (possibly `none`, known-not-to-exist). -/
theorem get_characterization (tx : VersionedTransaction) (t : String)
    (k : ItemKey) (hk : HashableItemKey) (hhk : hashable_key k = some hk) :
    (alookup tx.tables t = none → get tx t k = .error (.itemUndefined t k)) ∧
    (∀ td, alookup tx.tables t = some td →
      (∀ v, alookup td.effects hk = some v → get tx t k = .ok v) ∧
      (alookup td.effects hk = none → alookup td.items hk = none →
        get tx t k = .error (.itemUndefined t k)) ∧
      (∀ v, alookup td.effects hk = none → alookup td.items hk = some v →
        get tx t k = .ok v)) := by
  constructor
  · intro h; simp [get, h]
  · intro td htd
    refine ⟨?_, ?_, ?_⟩
    · intro v hv; simp [get, htd, hhk, hv]
    · intro he hi; simp [get, htd, hhk, he, hi]
    · intro v he hi; simp [get, htd, hhk, he, hi]

/-- Witness for `get_characterization` at a concrete input: the effect-only
key resolves to the effect's value. -/
theorem get_characterization_witness :
    get txEffOnly "T" keySteve = .ok (some itemSteve) := by
  have h := (get_characterization txEffOnly "T" keySteve hkSteve (by decide)).2
    ⟨[], [(hkSteve, some itemSteve)], ["id"]⟩ (by decide)
  exact h.1 (some itemSteve) (by decide)

/-! ## C7 — when `presume` is a no-op -/

/-- C7 counterexample: the key is present in the table's `effects` (a pending
delete) but not in `items`; the claim says `presume` is then a no-op
returning the same transaction, but the code consults only `items` and
returns a different transaction that records the presumed baseline. -/
theorem presume_not_noop_for_effect_only_key :
    (alookup txDelEff.tables "T").map (fun td => hasKey td.effects hkSteve) =
      some true ∧
    presume txDelEff "T" keySteve none = .ok txDelEffAfter ∧
    txDelEffAfter ≠ txDelEff := by
  decide

/-- C7 amended: for a presume that completes without assertion errors,
the result is the same transaction if and only if the key is already present
in the `items` (baseline) of the table data presume resolves; presence in
`effects` alone does not make `presume` a no-op. -/
theorem presume_noop_iff_key_in_items (tx : VersionedTransaction) (t : String)
    (k : ItemKey) (v : Option Item) (hk : HashableItemKey)
    (hhk : hashable_key k = some hk) (r : VersionedTransaction)
    (hr : presume tx t k v = .ok r) :
    (r = tx ↔ hasKey (presume_table_data tx t k).items hk = true) := by
  unfold presume at hr
  rcases hass : (match v with
    | some iv => presume_assert_keys iv k
    | none => Except.ok ()) with e | u
  · rw [hass] at hr; cases hr
  · rw [hass] at hr
    rw [hhk] at hr
    dsimp only at hr
    by_cases hkey : hasKey (presume_table_data tx t k).items hk = true
    · rw [if_pos hkey] at hr
      cases hr
      exact ⟨fun _ => hkey, fun _ => rfl⟩
    · rw [if_neg hkey] at hr
      cases hr
      constructor
      · intro heq
        exfalso
        apply hkey
        set td' : TableData :=
          ⟨pyInsert (presume_table_data tx t k).items hk (presume_value v),
            (presume_table_data tx t k).effects,
            (presume_table_data tx t k).key_attributes⟩ with htd'
        have h2 : alookup tx.tables t = some td' := by
          conv_lhs => rw [← heq]
          exact alookup_pyInsert_self ..
        have h3 : presume_table_data tx t k = td' := by
          unfold presume_table_data
          rw [h2]
        have h4 : (presume_table_data tx t k).items = td'.items :=
          congrArg TableData.items h3
        rw [hasKey, h4, htd']
        simp [alookup_pyInsert_self]
      · intro hkey2
        exact absurd hkey2 hkey

/-- Witness for `presume_noop_iff_key_in_items` at a concrete input: with
the key present in the table's `items`, presume returns the very same
transaction. -/
theorem presume_noop_iff_key_in_items_witness :
    hasKey (presume_table_data txSteve1 "Foo" keySteve).items hkSteve = true :=
  (presume_noop_iff_key_in_items txSteve1 "Foo" keySteve (some itemSteve)
    hkSteve (by decide) txSteve1 (by decide)).mp rfl

/-! ## C8 — the default retry classifier -/

/-- Formalization of C8's wording: retryable if and only if the failure
indicates (a) an in-progress conflicting transaction
(TransactionInProgressException), or (b) a cancelled atomic write
(TransactionCanceledException) in which every per-item cancellation reason is
in the retryable set. -/
def retryable_per_claim (ce : ClientError) : Bool :=
  (client_error_name ce = "TransactionInProgressException") ||
  ((client_error_name ce = "TransactionCanceledException") &&
    ce.cancellationReasons.all
      (fun c => _RetryableTransactionCancelledErrorCodes.contains c))

/-- C8 counterexample: a bare ConditionalCheckFailedException (the failure
shape raised by the optimized single-item write path) carries no per-item
cancellation reasons and does not indicate an in-progress transaction, yet
the default classifier retries it via `is_conditional_update_retryable`. -/
theorem retry_classifier_exceeds_claim :
    is_cancelled_and_retryable ⟨"ConditionalCheckFailedException", []⟩ = true ∧
    retryable_per_claim ⟨"ConditionalCheckFailedException", []⟩ = false := by
  decide

/-- C8 amended: the default classifier retries exactly the claim's cases (a)
and (b) *plus* the two single-item conditional-write failures
ConditionalCheckFailedException and TransactionConflictException (from
`is_conditional_update_retryable`, as raised by the optimized single-item
put/delete path); every other failure — e.g. a cancellation containing
ItemCollectionSizeLimitExceeded — is fatal. -/
theorem is_cancelled_and_retryable_characterization (ce : ClientError) :
    is_cancelled_and_retryable ce =
      (retryable_per_claim ce ||
        decide (ce.code = "ConditionalCheckFailedException") ||
        decide (ce.code = "TransactionConflictException")) := by
  rcases ce with ⟨code, reasons⟩
  simp only [is_cancelled_and_retryable, is_conditional_update_retryable,
    _is_transaction_failed_and_retryable, retryable_per_claim, client_error_name,
    _KNOWN_RETRYABLE_UPDATE_ERRORS, List.contains_cons, List.contains_nil]
  by_cases h₁ : code = "TransactionInProgressException" <;>
    by_cases h₂ : code = "TransactionCanceledException" <;>
    by_cases h₃ : code = "ConditionalCheckFailedException" <;>
    by_cases h₄ : code = "TransactionConflictException" <;>
    simp_all

/-! ## Request preparation (prepare.py) -/

/-- Keep-first deduplication helper (`seen` accumulates emitted elements). -/
def dedupFirstAux {α : Type u} [DecidableEq α] (seen : List α) : List α → List α
  | [] => []
  | a :: as =>
    if seen.contains a then dedupFirstAux seen as
    else a :: dedupFirstAux (a :: seen) as

/-- Keep-first deduplication. -/
def dedupFirst {α : Type u} [DecidableEq α] (l : List α) : List α :=
  dedupFirstAux [] l

/-- Embeds `_deduplicate_and_validate_keys`: every key must carry the same
attribute-name set as the first (AssertionError otherwise, modelled `none`);
keys already seen (by exact item tuple) are dropped.  `expected` starts as
the empty (falsy) set, exactly as the Python `key_attributes` set does. -/
def _dedupe_validate (expected : Finset String) (seen : List ItemKey) :
    List ItemKey → Option (List ItemKey)
  | [] => some []
  | k :: rest =>
    let attrs := (k.map Prod.fst).toFinset
    if expected ≠ ∅ then
      if attrs = expected then
        if seen.contains k then _dedupe_validate expected seen rest
        else (_dedupe_validate expected (k :: seen) rest).map (k :: ·)
      else none
    else
      if seen.contains k then _dedupe_validate attrs seen rest
      else (_dedupe_validate attrs (k :: seen) rest).map (k :: ·)

/-- Embeds `parse_batch_get_request`: drop tables with no keys, then
deduplicate/validate each table's keys. -/
def parse_batch_get_request (req : List (String × List ItemKey)) :
    Option (List (String × List ItemKey)) :=
  mapMO (fun te => (_dedupe_validate ∅ [] te.2).map (fun ks => (te.1, ks)))
    (req.filter (fun te => te.2 ≠ []))

/-- Embeds `items_and_keys_to_clean_table_data`: the table's baseline maps
every hashable key — those of the requested keys and those of the returned
items — to the returned item when present, else None.  The Python source
builds the key set as a `set` union (iteration order unspecified); the
embedding fixes requested-keys-first order, which no embedded property
depends on. -/
def items_and_keys_to_clean_table_data (key_attributes : List String)
    (item_keys : List ItemKey) (items : List Item) : Option TableData :=
  match mapMO hashable_key item_keys,
      mapMO (fun it => (key_from_item key_attributes it).bind hashable_key) items with
  | some khks, some ihks =>
    let existing_items_by_hashable_key :=
      (ihks.zip items).foldl (fun acc p => pyInsert acc p.1 p.2) []
    let hashable_keys := dedupFirst (khks ++ ihks)
    some ⟨hashable_keys.map (fun hk => (hk, alookup existing_items_by_hashable_key hk)),
      [], key_attributes⟩
  | _, _ => none

/-- Embeds `_extract_key_attributes`: the (sorted) attribute names of the
first key; `none` models the assertion on an empty key list. -/
def _extract_key_attributes (item_keys : List ItemKey) : Option (List String) :=
  match item_keys with
  | [] => none
  | k :: _ => some (standard_key_attributes_from_key k)

/-- Embeds `prepare_clean_transaction`.  `none` models the KeyError on a
response lacking a requested table and the assertions inside the per-table
preparation.  (`_drop_keys_with_empty_values` never drops anything, because
a `_TableData` named tuple is always truthy.) -/
def prepare_clean_transaction (req : List (String × List ItemKey))
    (resp : List (String × List Item)) : Option VersionedTransaction :=
  (mapMO (fun te =>
      match _extract_key_attributes te.2 with
      | none => none
      | some ka =>
        match alookup resp te.1 with
        | none => none
        | some items =>
          (items_and_keys_to_clean_table_data ka te.2 items).map
            (fun td => (te.1, td)))
    req).map (fun tbls => ⟨tbls⟩)

/-- Embeds `add_item_to_base_request`: append the key to the table's list
(creating the table entry when absent). -/
def add_item_to_base_request (req : List (String × List ItemKey))
    (tk : String × ItemKey) : List (String × List ItemKey) :=
  match alookup req tk.1 with
  | none => pyInsert req tk.1 [tk.2]
  | some ks => pyInsert req tk.1 (ks ++ [tk.2])

/-- Embeds `all_items_for_next_attempt`: every key (read or written) of the
failed transaction, per table.  The Python source accumulates per-table sets
(iteration order unspecified); the embedding keeps items-then-effects order.
With the snapshot's sources this function is only reachable from the dead
retry branch of the run loop (see `versioned_transact_write_items`). -/
def all_items_for_next_attempt (tx : VersionedTransaction) :
    Option (List (String × List ItemKey)) :=
  mapMO (fun te =>
      (mapMO (fun hk => hashable_key_to_key te.2.key_attributes hk)
        (dedupFirst (te.2.items.map Prod.fst ++ te.2.effects.map Prod.fst))).map
        (fun ks => (te.1, ks)))
    tx.tables

/-- The BatchRead collaborator, modelled from a store oracle: for each
requested table, the items present in the store under the requested keys
(absent keys return nothing, exactly like BatchGetItem). -/
def model_batch_get (store : String → HashableItemKey → Option Item)
    (req : List (String × List ItemKey)) : List (String × List Item) :=
  req.map (fun te => (te.1, te.2.filterMap (fun k => (hashable_key k).bind (store te.1))))

/-! ## Transaction builders as programs

The user-supplied transaction builder (a pure function
`VersionedTransaction → VersionedTransaction` using the read/modify API) is
embedded as a program tree: each `get`/`require` continues with a function of
the value read, so data-dependent reads are expressible; the modify
operations thread the transaction. -/

inductive Prog : Type where
  | done
  | getThen (table : String) (key : ItemKey) (cont : Option Item → Prog)
  | requireThen (table : String) (key : ItemKey) (cont : Item → Prog)
  | putThen (table : String) (item : Item) (next : Prog)
  | deleteThen (table : String) (key : ItemKey) (next : Prog)
  | presumeThen (table : String) (key : ItemKey) (value : Option Item) (next : Prog)
  | defineTableThen (table : String) (attrs : List String) (next : Prog)

/-- Run a builder program against a transaction state: returns the list of
keys it attempted to `get`/`require` (in order, including a final failed
attempt) and either the built transaction or the first exception raised. -/
def interp : Prog → VersionedTransaction →
    List (String × ItemKey) × Except BuildErr VersionedTransaction
  | .done, tx => ([], .ok tx)
  | .getThen t k cont, tx =>
    match get tx t k with
    | .ok v =>
      let r := interp (cont v) tx
      ((t, k) :: r.1, r.2)
    | .error e => ([(t, k)], .error e)
  | .requireThen t k cont, tx =>
    match require tx t k with
    | .ok item =>
      let r := interp (cont item) tx
      ((t, k) :: r.1, r.2)
    | .error e => ([(t, k)], .error e)
  | .putThen t item next, tx =>
    match put tx t item with
    | .ok tx2 => interp next tx2
    | .error e => ([], .error e)
  | .deleteThen t k next, tx =>
    match delete tx t k with
    | .ok tx2 => interp next tx2
    | .error e => ([], .error e)
  | .presumeThen t k v next, tx =>
    match presume tx t k v with
    | .ok tx2 => interp next tx2
    | .error e => ([], .error e)
  | .defineTableThen t attrs next, tx =>
    match define_table tx t attrs with
    | .ok tx2 => interp next tx2
    | .error e => ([], .error e)

/-! ## The lazy batch-fetch driver (run.py `_lazy_loading_transaction_builder`) -/

/-- The driver's outcome: the clean (seed) and built transactions plus the
builder's read trace; or a builder exception other than the caught
not-yet-known signal; or a Python crash in request parsing / preparation. -/
inductive LazyOutcome : Type where
  | ok (clean built : VersionedTransaction) (trace : List (String × ItemKey))
  | builderErr (e : BuildErr)
  | prepareCrash
deriving DecidableEq

/-- Embeds run.py `_lazy_loading_transaction_builder` as a fuel-indexed loop
(the source's `while True`); `none` means the fuel ran out (the model of
non-termination).  A not-yet-known signal (`ItemUndefinedException`, named
`ItemNotYetFetchedError` by run.py) enlarges the request and restarts; the
driver's `assert item_error.key` is the empty-key check. -/
def _lazy_loading_transaction_builder (p : Prog)
    (store : String → HashableItemKey → Option Item) :
    List (String × List ItemKey) → ℕ → Option LazyOutcome
  | _, 0 => none
  | req, fuel + 1 =>
    match parse_batch_get_request req with
    | none => some .prepareCrash
    | some preq =>
      match prepare_clean_transaction preq (model_batch_get store preq) with
      | none => some .prepareCrash
      | some clean =>
        match interp p clean with
        | (trace, .ok built) => some (.ok clean built trace)
        | (_, .error (BuildErr.itemUndefined t k)) =>
          if k = [] then some .prepareCrash
          else
            _lazy_loading_transaction_builder p store
              (add_item_to_base_request req (t, k)) fuel
        | (_, .error e) => some (.builderErr e)

/-! ## The run loop (run.py `versioned_transact_write_items`) -/

/-- Embeds `_is_empty`: no effects recorded in any table. -/
def _is_empty (transaction : VersionedTransaction) : Bool :=
  (transaction.tables.map (fun te => te.2.effects.length)).sum = 0

/-- run.py:116-124 passes five positional arguments (`built_transaction`,
the timestamp, `""`, `item_version_attribute`, `last_written_attribute`) to
`built_transaction_to_transact_write_items_args`. -/
def run_commit_call_positional_args : ℕ := 5

/-- ddb_api.py:177-182: the current signature of
`built_transaction_to_transact_write_items_args` accepts at most four
positional parameters (two required, two defaulted); the extra `""` that
run.py still passes belonged to the dropped `ClientRequestToken` parameter,
which the older copy at transact/ddb_api.py:110-115 retains. -/
def built_tx_args_max_positional_params : ℕ := 4

/-- The failure modes of `versioned_transact_write_items`. -/
inductive RunError : Type where
  | typeError
  | lazyCrash
  | builder (e : BuildErr)
  | clientError (ce : ClientError)
  | attemptsOverrun
  | assertionError
deriving DecidableEq

/-- The attempt loop of `versioned_transact_write_items`.  Each attempt runs
the lazy driver; an empty (or identical) built transaction returns the clean
transaction at once.  Otherwise the commit call is made as run.py makes it:
with five positional arguments against a four-parameter callee, so Python
raises TypeError before the request is built or the write collaborator is
invoked — the request-building, write, retry-classification and reseed
branches below are faithful to the source but unreachable.  The returned
list is the log of invocations of the atomic-write collaborator.  `made`
tracks whether any attempt ran (exhaustion with a prior attempt raises
TransactionAttemptsOverrun; with none, the final `assert built_transaction`
fails). -/
def run_loop (p : Prog) (store : String → HashableItemKey → Option Item)
    (write : List TransactItem → Except ClientError Unit)
    (is_retryable : ClientError → Bool) (ivk lwk now_str : String)
    (lazy_fuel : ℕ) :
    Bool → List (String × List ItemKey) → ℕ → List (List TransactItem) →
    Option (Except RunError VersionedTransaction × List (List TransactItem))
  | made, _, 0, log =>
    some (.error (if made then RunError.attemptsOverrun else RunError.assertionError), log)
  | _, req, n + 1, log =>
    match _lazy_loading_transaction_builder p store req lazy_fuel with
    | none => none
    | some .prepareCrash => some (.error .lazyCrash, log)
    | some (.builderErr e) => some (.error (.builder e), log)
    | some (.ok clean built _) =>
      if built = clean ∨ _is_empty built then some (.ok clean, log)
      else
        if run_commit_call_positional_args ≤ built_tx_args_max_positional_params then
          match built_transaction_to_transact_write_items_args built now_str ivk lwk with
          | none => some (.error .typeError, log)
          | some titems =>
            match write titems with
            | .ok _ => some (.ok built, log ++ [titems])
            | .error ce =>
              if is_retryable ce then
                match all_items_for_next_attempt built with
                | none => some (.error .lazyCrash, log ++ [titems])
                | some req2 =>
                  run_loop p store write is_retryable ivk lwk now_str lazy_fuel
                    true req2 n (log ++ [titems])
              else some (.error (.clientError ce), log ++ [titems])
        else
          some (.error .typeError, log)

/-- Embeds `versioned_transact_write_items`: the public entry point, with the
collaborators injected and the attempts iterator abstracted to its length. -/
def versioned_transact_write_items (p : Prog)
    (store : String → HashableItemKey → Option Item)
    (write : List TransactItem → Except ClientError Unit)
    (is_retryable : ClientError → Bool) (ivk lwk now_str : String)
    (req : List (String × List ItemKey)) (attempts lazy_fuel : ℕ) :
    Option (Except RunError VersionedTransaction × List (List TransactItem)) :=
  run_loop p store write is_retryable ivk lwk now_str lazy_fuel false req attempts []

/-! ## The retry schedule (write_versioned/retry.py; transact/retry.py is the
same loop with a float deadline instead of a timedelta) -/

/-- The observable events of the `timed_retry` generator: a yielded attempt
token, a deadline check (`time.monotonic() <= expiring_at`), and a sleep. -/
inductive RetryEvent : Type where
  | yieldToken
  | deadlineCheck (passed : Bool)
  | sleep (len : ℚ)
deriving DecidableEq

/-- Embeds `_choose_sleep_len_to_average_N_attempts_in_the_total_interval`:
-1 once the attempt budget is exhausted, otherwise the remaining time
divided by the remaining attempts, jittered by `uniform(0, 1.9)` when
`random_sleep_length` (the draw is supplied by the caller), clamped into
`[0, seconds_left - 0.1]`. -/
def _choose_sleep_len_to_average_N_attempts_in_the_total_interval
    (max_attempts_before_expiration : Int) (random_sleep_length : Bool)
    (seconds_left : ℚ) (attempt : Int) (jitter_draw : ℚ) : ℚ :=
  if attempt ≥ max_attempts_before_expiration then -1
  else
    max (min ((seconds_left / ((max_attempts_before_expiration : ℚ) - (attempt : ℚ))) *
        (if random_sleep_length then jitter_draw else 1))
      (seconds_left - 1 / 10)) 0

mutual

/-- One guard evaluation of `timed_retry`'s `while attempt == 0 or
time.monotonic() <= expiring_at` loop.  The clock is a stream of monotonic
readings consumed one index per `time.monotonic()` call; with `attempt == 0`
the disjunction short-circuits and no clock reading is consumed. -/
def timed_retry_aux (clock jitter : ℕ → ℚ) (random_sleep_length : Bool)
    (max_attempts_before_expiration : Int) (expiring_at : ℚ) :
    ℕ → ℕ → ℕ → List RetryEvent
  | _, _, 0 => []
  | attempt, ci, fuel + 1 =>
    if attempt = 0 then
      timed_retry_body clock jitter random_sleep_length
        max_attempts_before_expiration expiring_at attempt ci fuel
    else
      let ok := decide (clock ci ≤ expiring_at)
      RetryEvent.deadlineCheck ok ::
        (if ok then
          timed_retry_body clock jitter random_sleep_length
            max_attempts_before_expiration expiring_at attempt (ci + 1) fuel
        else [])

/-- The loop body of `timed_retry`: increment the attempt counter, yield an
attempt token, compute the sleep length from a fresh clock reading (break on
a negative result), sleep, and loop. -/
def timed_retry_body (clock jitter : ℕ → ℚ) (random_sleep_length : Bool)
    (max_attempts_before_expiration : Int) (expiring_at : ℚ)
    (attempt ci fuel : ℕ) : List RetryEvent :=
  RetryEvent.yieldToken ::
    (let sleep := _choose_sleep_len_to_average_N_attempts_in_the_total_interval
      max_attempts_before_expiration random_sleep_length
      (expiring_at - clock ci) ((attempt : Int) + 1) (jitter (attempt + 1))
    if sleep < 0 then []
    else RetryEvent.sleep sleep ::
      timed_retry_aux clock jitter random_sleep_length
        max_attempts_before_expiration expiring_at (attempt + 1) (ci + 1) fuel)

end

/-- Embeds `timed_retry`: `expiring_at = time.monotonic() +
transaction_expiration.total_seconds()` consumes clock reading 0, then the
loop runs (fuel-bounded in the model). -/
def timed_retry (clock jitter : ℕ → ℚ) (random_sleep_length : Bool)
    (transaction_expiration_seconds : ℚ) (max_attempts_before_expiration : Int)
    (fuel : ℕ) : List RetryEvent :=
  timed_retry_aux clock jitter random_sleep_length max_attempts_before_expiration
    (clock 0 + transaction_expiration_seconds) 0 1 fuel

/-! ## C2 and C5 — the run loop -/

/-- An item and its key used by the run-loop fixtures. -/
def itemA : Item := [("id", .s "a"), ("v", .n 1)]

/-- The key of `itemA`. -/
def keyA : ItemKey := [("id", .s "a")]

/-- A store with no items (every read returns nothing). -/
def storeEmpty : String → HashableItemKey → Option Item := fun _ _ => none

/-- An atomic-write collaborator that always succeeds. -/
def writeOk : List TransactItem → Except ClientError Unit := fun _ => .ok ()

/-- A builder that records one put effect (after defining the table schema),
as in run_test.test_no_io_run and the integration tests. -/
def progC2 : Prog := .defineTableThen "T" ["id"] (.putThen "T" itemA .done)

/-- The transaction `progC2` builds: one recorded put effect. -/
def builtC2 : VersionedTransaction :=
  ⟨[("T", ⟨[], [(.one (.s "a"), some itemA)], ["id"]⟩)]⟩

/-- A pure-read builder: get one key and change nothing. -/
def progGet : Prog := .getThen "T" keyA (fun _ => .done)

/-- The clean transaction the lazy driver produces for `progGet` over the
empty store: the key fetched as known-absent, no effects. -/
def cleanGet : VersionedTransaction :=
  ⟨[("T", ⟨[(.one (.s "a"), none)], [], ["id"]⟩)]⟩

/-- C2: the claim says that on an attempt whose built transaction records an
effect, the run loop builds the commit request (with the item_version /
last_written_at attribute names it was given) and invokes the atomic write,
returning the built transaction on success.  On this snapshot the commit
call at run.py:116-124 passes five positional arguments to the
four-parameter `built_transaction_to_transact_write_items_args`
(ddb_api.py:177-182; the fifth argument belonged to the dropped
ClientRequestToken parameter still present in transact/ddb_api.py), so
Python raises TypeError: the run returns the TypeError and the atomic-write
collaborator is never invoked (empty write log), even though the lazy phase
succeeded with a non-empty built transaction. -/
theorem run_nonempty_commit_raises_type_error :
    versioned_transact_write_items progC2 storeEmpty writeOk
        is_cancelled_and_retryable "item_version" "last_written_at" "ts0" [] 3 2 =
      some (.error .typeError, []) ∧
    _lazy_loading_transaction_builder progC2 storeEmpty [] 2 =
      some (.ok ⟨[]⟩ builtC2 []) ∧
    _is_empty builtC2 = false := by
  refine ⟨by decide, by decide, by decide⟩

/-- C5: a built transaction recording zero effects makes the run return the
clean (seed) transaction on that very attempt, with the atomic-write
collaborator never invoked (the write log stays empty). -/
theorem run_empty_effects_returns_clean_without_write
    (p : Prog) (store : String → HashableItemKey → Option Item)
    (write : List TransactItem → Except ClientError Unit)
    (is_retryable : ClientError → Bool) (ivk lwk now_str : String)
    (req : List (String × List ItemKey)) (attempts lazy_fuel : ℕ)
    (clean built : VersionedTransaction) (trace : List (String × ItemKey))
    (hatt : 1 ≤ attempts)
    (hlazy : _lazy_loading_transaction_builder p store req lazy_fuel =
      some (.ok clean built trace))
    (hempty : _is_empty built = true) :
    versioned_transact_write_items p store write is_retryable ivk lwk now_str
        req attempts lazy_fuel = some (.ok clean, []) := by
  obtain ⟨n, rfl⟩ : ∃ n, attempts = n + 1 := ⟨attempts - 1, by omega⟩
  unfold versioned_transact_write_items run_loop
  rw [hlazy]
  exact if_pos (Or.inr hempty)

/-- Witness for `run_empty_effects_returns_clean_without_write`: the
pure-read builder over the empty store returns the seed transaction and the
write log is empty. -/
theorem run_empty_effects_witness :
    versioned_transact_write_items progGet storeEmpty writeOk
        is_cancelled_and_retryable "item_version" "last_written_at" "ts0" [] 3 2 =
      some (.ok cleanGet, []) :=
  run_empty_effects_returns_clean_without_write progGet storeEmpty writeOk
    is_cancelled_and_retryable "item_version" "last_written_at" "ts0" [] 3 2
    cleanGet cleanGet [("T", keyA)] (by omega) (by decide) (by decide)

/-! ## C10 — the retry schedule yields before checking the deadline -/

/-- C10: for every clock trace, jitter trace, expiration duration (including
zero and already-elapsed, i.e. negative remaining time) and attempt budget,
the `timed_retry` generator's first event is a yielded attempt token — the
`attempt == 0` disjunct short-circuits the guard, so the deadline is not even
read before the first yield; hence the commit loop always performs at least
one attempt. -/
theorem timed_retry_yields_before_deadline_check
    (clock jitter : ℕ → ℚ) (random_sleep_length : Bool)
    (dur : ℚ) (maxAtt : Int) (fuel : ℕ) (hfuel : 1 ≤ fuel) (_hmax : 1 ≤ maxAtt) :
    (timed_retry clock jitter random_sleep_length dur maxAtt fuel).head? =
      some RetryEvent.yieldToken ∧
    RetryEvent.yieldToken ∈ timed_retry clock jitter random_sleep_length dur maxAtt fuel := by
  obtain ⟨f, rfl⟩ : ∃ f, fuel = f + 1 := ⟨fuel - 1, by omega⟩
  constructor
  · simp [timed_retry, timed_retry_aux, timed_retry_body]
  · simp [timed_retry, timed_retry_aux, timed_retry_body]

/-- Witness for `timed_retry_yields_before_deadline_check` at a concrete
input: an already-expired schedule (duration 0) with one allowed attempt
still yields first. -/
theorem timed_retry_yields_witness :
    (timed_retry (fun _ => 0) (fun _ => 0) true 0 1 1).head? =
      some RetryEvent.yieldToken :=
  (timed_retry_yields_before_deadline_check (fun _ => 0) (fun _ => 0) true 0 1 1
    (by omega) (by omega)).1


def knownInItems (tx : VersionedTransaction) (t : String) (k : ItemKey) : Bool :=
  match alookup tx.tables t, hashable_key k with
  | some td, some hk => hasKey td.items hk
  | _, _ => false

def knownInEffects (tx : VersionedTransaction) (t : String) (k : ItemKey) : Bool :=
  match alookup tx.tables t, hashable_key k with
  | some td, some hk => hasKey td.effects hk
  | _, _ => false

theorem knownInItems_tables_pyInsert (tx : VersionedTransaction) (tn : String)
    (td' : TableData) (t : String) (k : ItemKey)
    (h : knownInItems tx t k = true)
    (himp : t = tn → ∀ td, alookup tx.tables tn = some td →
      ∀ hk, hasKey td.items hk = true → hasKey td'.items hk = true) :
    knownInItems ⟨pyInsert tx.tables tn td'⟩ t k = true := by
  unfold knownInItems at h ⊢
  cases htx : alookup tx.tables t with
  | none => rw [htx] at h; cases h
  | some td =>
      rw [htx] at h
      cases hhk : hashable_key k with
      | none => rw [hhk] at h; cases h
      | some hk =>
          rw [hhk] at h
          by_cases hteq : t = tn
          · subst hteq
            rw [show alookup (pyInsert tx.tables t td') t = some td' from
              alookup_pyInsert_self ..]
            exact himp rfl td htx hk h
          · rw [show alookup (pyInsert tx.tables tn td') t = alookup tx.tables t from
              alookup_pyInsert_ne _ _ _ _ hteq, htx]
            exact h

theorem knownInEffects_tables_pyInsert (tx : VersionedTransaction) (tn : String)
    (td' : TableData) (t : String) (k : ItemKey)
    (h : knownInEffects tx t k = true)
    (himp : t = tn → ∀ td, alookup tx.tables tn = some td →
      ∀ hk, hasKey td.effects hk = true → hasKey td'.effects hk = true) :
    knownInEffects ⟨pyInsert tx.tables tn td'⟩ t k = true := by
  unfold knownInEffects at h ⊢
  cases htx : alookup tx.tables t with
  | none => rw [htx] at h; cases h
  | some td =>
      rw [htx] at h
      cases hhk : hashable_key k with
      | none => rw [hhk] at h; cases h
      | some hk =>
          rw [hhk] at h
          by_cases hteq : t = tn
          · subst hteq
            rw [show alookup (pyInsert tx.tables t td') t = some td' from
              alookup_pyInsert_self ..]
            exact himp rfl td htx hk h
          · rw [show alookup (pyInsert tx.tables tn td') t = alookup tx.tables t from
              alookup_pyInsert_ne _ _ _ _ hteq, htx]
            exact h

theorem _write_effect_ok_shape (tx : VersionedTransaction) (tn : String)
    (pod : PutOrDelete) (items effects : List (HashableItemKey × Option Item))
    (ka : List String) (tx2 : VersionedTransaction)
    (h : _write_effect tx tn pod items effects ka = .ok tx2) :
    ∃ hk eff, tx2 = ⟨pyInsert tx.tables tn ⟨items, pyInsert effects hk eff, ka⟩⟩ := by
  unfold _write_effect at h
  cases pod with
  | put item =>
      dsimp only at h
      cases hkf : key_from_item ka item with
      | none => rw [hkf] at h; cases h
      | some ikey =>
          rw [hkf] at h
          dsimp only at h
          cases hhk : hashable_key ikey with
          | none => rw [hhk] at h; cases h
          | some hk => rw [hhk] at h; injection h with h2; exact ⟨hk, some item, h2.symm⟩
  | delete ik =>
      dsimp only at h
      cases hkf : key_from_item ka ik with
      | none => rw [hkf] at h; cases h
      | some ikey =>
          rw [hkf] at h
          dsimp only at h
          cases hhk : hashable_key ikey with
          | none => rw [hhk] at h; cases h
          | some hk => rw [hhk] at h; injection h with h2; exact ⟨hk, none, h2.symm⟩
theorem _write_ok_shape (tx : VersionedTransaction) (tn : String)
    (pod : PutOrDelete) (tx2 : VersionedTransaction)
    (h : _write tx tn pod = .ok tx2) :
    ∃ items effects ka, tx2 = ⟨pyInsert tx.tables tn ⟨items, effects, ka⟩⟩ ∧
      (∀ td, alookup tx.tables tn = some td →
        items = td.items ∧
        (∀ hk, hasKey td.effects hk = true → hasKey effects hk = true)) := by
  unfold _write at h
  cases htd : alookup tx.tables tn with
  | some td =>
      rw [htd] at h
      dsimp only at h
      obtain ⟨hk, eff, rfl⟩ := _write_effect_ok_shape _ _ _ _ _ _ _ h
      refine ⟨td.items, pyInsert td.effects hk eff, td.key_attributes, rfl, ?_⟩
      intro td0 htd0
      injection htd0 with htd0e
      subst htd0e
      refine ⟨rfl, ?_⟩
      intro hk0 hh
      rw [hasKey_pyInsert, hh]
      simp
  | none =>
      rw [htd] at h
      dsimp only at h
      cases pod with
      | put item =>
          simp only [known_key_schema, List.isEmpty_nil, if_true] at h
          cases h
      | delete ik =>
          simp only [known_key_schema, List.isEmpty_nil, if_true] at h
          by_cases hlen : ik.length > 2
          · rw [if_pos hlen] at h; cases h
          · rw [if_neg hlen] at h
            obtain ⟨hk, eff, rfl⟩ := _write_effect_ok_shape _ _ _ _ _ _ _ h
            refine ⟨[], pyInsert [] hk eff, standard_key_attributes_from_key ik, rfl, ?_⟩
            intro td0 htd0
            cases htd0

theorem _write_mono_known (tx : VersionedTransaction) (tn : String)
    (pod : PutOrDelete) (tx2 : VersionedTransaction)
    (h : _write tx tn pod = .ok tx2) (t : String) (k : ItemKey) :
    (knownInItems tx t k = true → knownInItems tx2 t k = true) ∧
    (knownInEffects tx t k = true → knownInEffects tx2 t k = true) := by
  obtain ⟨items, effects, ka, rfl, hrel⟩ := _write_ok_shape _ _ _ _ h
  constructor
  · intro hkn
    apply knownInItems_tables_pyInsert _ _ _ _ _ hkn
    intro _ td0 htd0 hk0 hh
    have hieq := (hrel td0 htd0).1
    show hasKey items hk0 = true
    rw [hieq]
    exact hh
  · intro hkn
    apply knownInEffects_tables_pyInsert _ _ _ _ _ hkn
    intro _ td0 htd0 hk0 hh
    exact (hrel td0 htd0).2 hk0 hh

theorem presume_ok_shape (tx : VersionedTransaction) (tn : String) (k : ItemKey)
    (v : Option Item) (tx2 : VersionedTransaction)
    (h : presume tx tn k v = .ok tx2) :
    tx2 = tx ∨ ∃ hk v2, tx2 = ⟨pyInsert tx.tables tn
      ⟨pyInsert (presume_table_data tx tn k).items hk v2,
        (presume_table_data tx tn k).effects,
        (presume_table_data tx tn k).key_attributes⟩⟩ := by
  unfold presume at h
  rcases hass : (match v with
    | some iv => presume_assert_keys iv k
    | none => Except.ok ()) with e | u
  · rw [hass] at h; cases h
  · rw [hass] at h
    dsimp only at h
    cases hhk : hashable_key k with
    | none => rw [hhk] at h; cases h
    | some hk =>
        rw [hhk] at h
        dsimp only at h
        by_cases hkey : hasKey (presume_table_data tx tn k).items hk = true
        · rw [if_pos hkey] at h; injection h with h2; exact Or.inl h2.symm
        · rw [if_neg hkey] at h; injection h with h2; exact Or.inr ⟨hk, _, h2.symm⟩

theorem presume_table_data_of_some (tx : VersionedTransaction) (tn : String)
    (k : ItemKey) (td : TableData) (h : alookup tx.tables tn = some td) :
    presume_table_data tx tn k = td := by
  unfold presume_table_data
  rw [h]

theorem presume_mono_known (tx : VersionedTransaction) (tn : String) (k0 : ItemKey)
    (v : Option Item) (tx2 : VersionedTransaction)
    (h : presume tx tn k0 v = .ok tx2) (t : String) (k : ItemKey) :
    (knownInItems tx t k = true → knownInItems tx2 t k = true) ∧
    (knownInEffects tx t k = true → knownInEffects tx2 t k = true) := by
  rcases presume_ok_shape _ _ _ _ _ h with rfl | ⟨hk, v2, rfl⟩
  · exact ⟨id, id⟩
  constructor
  · intro hkn
    apply knownInItems_tables_pyInsert _ _ _ _ _ hkn
    intro _ td0 htd0 hk0 hh
    show hasKey (pyInsert (presume_table_data tx tn k0).items hk v2) hk0 = true
    rw [presume_table_data_of_some _ _ _ _ htd0, hasKey_pyInsert, hh]
    simp
  · intro hkn
    apply knownInEffects_tables_pyInsert _ _ _ _ _ hkn
    intro _ td0 htd0 hk0 hh
    show hasKey (presume_table_data tx tn k0).effects hk0 = true
    rw [presume_table_data_of_some _ _ _ _ htd0]
    exact hh

theorem define_table_ok_shape (tx : VersionedTransaction) (tn : String)
    (attrs : List String) (tx2 : VersionedTransaction)
    (h : define_table tx tn attrs = .ok tx2) :
    tx2 = tx ∨ (alookup tx.tables tn = none ∧
      ∃ td', tx2 = ⟨pyInsert tx.tables tn td'⟩) := by
  unfold define_table at h
  by_cases h1 : attrs.length = 0 ∨ 2 < attrs.length
  · rw [if_pos h1] at h; cases h
  · rw [if_neg h1] at h
    by_cases h2 : hasKey tx.tables tn = true
    · rw [if_pos h2] at h; injection h with h3; exact Or.inl h3.symm
    · rw [if_neg h2] at h
      injection h with h3
      refine Or.inr ⟨?_, _, h3.symm⟩
      unfold hasKey at h2
      cases halook : alookup tx.tables tn with
      | none => rfl
      | some td => rw [halook] at h2; exact absurd rfl h2

theorem define_table_mono_known (tx : VersionedTransaction) (tn : String)
    (attrs : List String) (tx2 : VersionedTransaction)
    (h : define_table tx tn attrs = .ok tx2) (t : String) (k : ItemKey) :
    (knownInItems tx t k = true → knownInItems tx2 t k = true) ∧
    (knownInEffects tx t k = true → knownInEffects tx2 t k = true) := by
  rcases define_table_ok_shape _ _ _ _ h with rfl | ⟨hnone, td', rfl⟩
  · exact ⟨id, id⟩
  constructor
  · intro hkn
    apply knownInItems_tables_pyInsert _ _ _ _ _ hkn
    intro _ td0 htd0 _ _
    rw [hnone] at htd0
    cases htd0
  · intro hkn
    apply knownInEffects_tables_pyInsert _ _ _ _ _ hkn
    intro _ td0 htd0 _ _
    rw [hnone] at htd0
    cases htd0
theorem _write_effect_error_cases (tx : VersionedTransaction) (tn : String)
    (pod : PutOrDelete) (items effects : List (HashableItemKey × Option Item))
    (ka : List String) (e : BuildErr)
    (h : _write_effect tx tn pod items effects ka = .error e) :
    e = BuildErr.keyError ∨ e = BuildErr.assertionError := by
  unfold _write_effect at h
  cases pod with
  | put item =>
      dsimp only at h
      cases hkf : key_from_item ka item with
      | none => rw [hkf] at h; injection h with h2; exact Or.inl h2.symm
      | some ikey =>
          rw [hkf] at h
          dsimp only at h
          cases hhk : hashable_key ikey with
          | none => rw [hhk] at h; injection h with h2; exact Or.inr h2.symm
          | some hk => rw [hhk] at h; cases h
  | delete ik =>
      dsimp only at h
      cases hkf : key_from_item ka ik with
      | none => rw [hkf] at h; injection h with h2; exact Or.inl h2.symm
      | some ikey =>
          rw [hkf] at h
          dsimp only at h
          cases hhk : hashable_key ikey with
          | none => rw [hhk] at h; injection h with h2; exact Or.inr h2.symm
          | some hk => rw [hhk] at h; cases h

theorem _write_error_cases (tx : VersionedTransaction) (tn : String)
    (pod : PutOrDelete) (e : BuildErr) (h : _write tx tn pod = .error e) :
    e = .tableSchemaUnknown ∨ e = .keyError ∨ e = .assertionError := by
  unfold _write at h
  cases htd : alookup tx.tables tn with
  | some td =>
      rw [htd] at h
      dsimp only at h
      rcases _write_effect_error_cases _ _ _ _ _ _ _ h with h2 | h2
      · exact Or.inr (Or.inl h2)
      · exact Or.inr (Or.inr h2)
  | none =>
      rw [htd] at h
      dsimp only at h
      cases pod with
      | put item =>
          simp only [known_key_schema, List.isEmpty_nil, if_true] at h
          injection h with h2
          exact Or.inl h2.symm
      | delete ik =>
          simp only [known_key_schema, List.isEmpty_nil, if_true] at h
          by_cases hlen : ik.length > 2
          · rw [if_pos hlen] at h
            injection h with h2
            exact Or.inl h2.symm
          · rw [if_neg hlen] at h
            rcases _write_effect_error_cases _ _ _ _ _ _ _ h with h2 | h2
            · exact Or.inr (Or.inl h2)
            · exact Or.inr (Or.inr h2)

theorem presume_assert_keys_error (iv : Item) (ks : ItemKey) (e : BuildErr)
    (h : presume_assert_keys iv ks = .error e) :
    e = .keyError ∨ e = .assertionError := by
  induction ks with
  | nil => cases h
  | cons kv rest ih =>
      unfold presume_assert_keys at h
      cases hl : alookup iv kv.1 with
      | none => rw [hl] at h; injection h with h2; exact Or.inl h2.symm
      | some v0 =>
          rw [hl] at h
          dsimp only at h
          by_cases hv : v0 = kv.2
          · rw [if_pos hv] at h
            exact ih h
          · rw [if_neg hv] at h
            injection h with h2
            exact Or.inr h2.symm

theorem presume_error_cases (tx : VersionedTransaction) (tn : String)
    (k : ItemKey) (v : Option Item) (e : BuildErr)
    (h : presume tx tn k v = .error e) :
    e = .keyError ∨ e = .assertionError := by
  unfold presume at h
  rcases hass : (match v with
    | some iv => presume_assert_keys iv k
    | none => Except.ok ()) with e0 | u
  · rw [hass] at h
    injection h with h2
    subst h2
    cases v with
    | some iv => exact presume_assert_keys_error iv k _ hass
    | none => cases hass
  · rw [hass] at h
    dsimp only at h
    cases hhk : hashable_key k with
    | none => rw [hhk] at h; injection h with h2; exact Or.inr h2.symm
    | some hk =>
        rw [hhk] at h
        dsimp only at h
        by_cases hkey : hasKey (presume_table_data tx tn k).items hk = true
        · rw [if_pos hkey] at h; cases h
        · rw [if_neg hkey] at h; cases h

theorem define_table_error_cases (tx : VersionedTransaction) (tn : String)
    (attrs : List String) (e : BuildErr)
    (h : define_table tx tn attrs = .error e) : e = .assertionError := by
  unfold define_table at h
  by_cases h1 : attrs.length = 0 ∨ 2 < attrs.length
  · rw [if_pos h1] at h; injection h with h2; exact h2.symm
  · rw [if_neg h1] at h
    by_cases h2 : hasKey tx.tables tn = true
    · rw [if_pos h2] at h; cases h
    · rw [if_neg h2] at h; cases h
theorem get_ok_known (tx : VersionedTransaction) (t : String) (k : ItemKey)
    (v : Option Item) (h : get tx t k = .ok v) :
    (knownInItems tx t k || knownInEffects tx t k) = true := by
  unfold get at h
  cases htd : alookup tx.tables t with
  | none => rw [htd] at h; cases h
  | some td =>
      rw [htd] at h
      dsimp only at h
      cases hhk : hashable_key k with
      | none => rw [hhk] at h; cases h
      | some hk =>
          rw [hhk] at h
          dsimp only at h
          cases heff : alookup td.effects hk with
          | some v0 =>
              simp [knownInItems, knownInEffects, htd, hhk, hasKey, heff]
          | none =>
              rw [heff] at h
              dsimp only at h
              cases hit : alookup td.items hk with
              | none => rw [hit] at h; cases h
              | some v1 =>
                  simp [knownInItems, knownInEffects, htd, hhk, hasKey, hit]

theorem get_undefined_shape (tx : VersionedTransaction) (t : String) (k : ItemKey)
    (t' : String) (k' : ItemKey)
    (h : get tx t k = .error (.itemUndefined t' k')) :
    t' = t ∧ k' = k ∧ (knownInItems tx t k || knownInEffects tx t k) = false := by
  unfold get at h
  cases htd : alookup tx.tables t with
  | none =>
      rw [htd] at h
      injection h with h2
      injection h2 with h3 h4
      exact ⟨h3.symm, h4.symm, by simp [knownInItems, knownInEffects, htd]⟩
  | some td =>
      rw [htd] at h
      dsimp only at h
      cases hhk : hashable_key k with
      | none => rw [hhk] at h; injection h with h2; cases h2
      | some hk =>
          rw [hhk] at h
          dsimp only at h
          cases heff : alookup td.effects hk with
          | some v0 => rw [heff] at h; cases h
          | none =>
              rw [heff] at h
              dsimp only at h
              cases hit : alookup td.items hk with
              | some v1 => rw [hit] at h; cases h
              | none =>
                  rw [hit] at h
                  injection h with h2
                  injection h2 with h3 h4
                  refine ⟨h3.symm, h4.symm, ?_⟩
                  simp [knownInItems, knownInEffects, htd, hhk, hasKey, heff, hit]

theorem require_ok_get (tx : VersionedTransaction) (t : String) (k : ItemKey)
    (item : Item) (h : require tx t k = .ok item) : get tx t k = .ok (some item) := by
  unfold require at h
  cases hg : get tx t k with
  | error e => rw [hg] at h; cases h
  | ok v =>
      rw [hg] at h
      cases v with
      | none => cases h
      | some i =>
          dsimp only at h
          by_cases hi : i = []
          · rw [if_pos hi] at h; cases h
          · rw [if_neg hi] at h
            injection h with h2
            rw [h2]

theorem require_undefined_get (tx : VersionedTransaction) (t : String) (k : ItemKey)
    (t' : String) (k' : ItemKey)
    (h : require tx t k = .error (.itemUndefined t' k')) :
    get tx t k = .error (.itemUndefined t' k') := by
  unfold require at h
  cases hg : get tx t k with
  | error e =>
      rw [hg] at h
      injection h with h2
      rw [h2]
  | ok v =>
      rw [hg] at h
      cases v with
      | none => injection h with h2; cases h2
      | some i =>
          dsimp only at h
          by_cases hi : i = []
          · rw [if_pos hi] at h; injection h with h2; cases h2
          · rw [if_neg hi] at h; cases h
theorem interp_ok_mono (p : Prog) : ∀ (tx : VersionedTransaction)
    (tr : List (String × ItemKey)) (built : VersionedTransaction),
    interp p tx = (tr, .ok built) → ∀ (t : String) (k : ItemKey),
    (knownInItems tx t k = true → knownInItems built t k = true) ∧
    (knownInEffects tx t k = true → knownInEffects built t k = true) := by
  induction p with
  | done =>
      intro tx tr built h t k
      injection h with h1 h2
      injection h2 with h3
      subst h3
      exact ⟨id, id⟩
  | getThen t0 k0 cont ih =>
      intro tx tr built h t k
      rw [interp] at h
      cases hg : get tx t0 k0 with
      | ok v =>
          rw [hg] at h
          dsimp only at h
          injection h with h1 h2
          exact ih v tx (interp (cont v) tx).1 built (by rw [← h2]) t k
      | error e =>
          rw [hg] at h
          injection h with h1 h2
          exact Except.noConfusion h2
  | requireThen t0 k0 cont ih =>
      intro tx tr built h t k
      rw [interp] at h
      cases hg : require tx t0 k0 with
      | ok v =>
          rw [hg] at h
          dsimp only at h
          injection h with h1 h2
          exact ih v tx (interp (cont v) tx).1 built (by rw [← h2]) t k
      | error e =>
          rw [hg] at h
          injection h with h1 h2
          exact Except.noConfusion h2
  | putThen t0 item next ih =>
      intro tx tr built h t k
      dsimp only [interp] at h
      cases hp : put tx t0 item with
      | ok tx2 =>
          rw [hp] at h
          have hm := _write_mono_known tx t0 (.put (dynamodb_prewrite item)) tx2 hp t k
          have hb := ih tx2 tr built h t k
          exact ⟨fun hkn => hb.1 (hm.1 hkn), fun hkn => hb.2 (hm.2 hkn)⟩
      | error e =>
          rw [hp] at h
          injection h with h1 h2
          exact Except.noConfusion h2
  | deleteThen t0 k0 next ih =>
      intro tx tr built h t k
      dsimp only [interp] at h
      cases hp : delete tx t0 k0 with
      | ok tx2 =>
          rw [hp] at h
          have hm := _write_mono_known tx t0 (.delete k0) tx2 hp t k
          have hb := ih tx2 tr built h t k
          exact ⟨fun hkn => hb.1 (hm.1 hkn), fun hkn => hb.2 (hm.2 hkn)⟩
      | error e =>
          rw [hp] at h
          injection h with h1 h2
          exact Except.noConfusion h2
  | presumeThen t0 k0 v next ih =>
      intro tx tr built h t k
      dsimp only [interp] at h
      cases hp : presume tx t0 k0 v with
      | ok tx2 =>
          rw [hp] at h
          have hm := presume_mono_known tx t0 k0 v tx2 hp t k
          have hb := ih tx2 tr built h t k
          exact ⟨fun hkn => hb.1 (hm.1 hkn), fun hkn => hb.2 (hm.2 hkn)⟩
      | error e =>
          rw [hp] at h
          injection h with h1 h2
          exact Except.noConfusion h2
  | defineTableThen t0 attrs next ih =>
      intro tx tr built h t k
      dsimp only [interp] at h
      cases hp : define_table tx t0 attrs with
      | ok tx2 =>
          rw [hp] at h
          have hm := define_table_mono_known tx t0 attrs tx2 hp t k
          have hb := ih tx2 tr built h t k
          exact ⟨fun hkn => hb.1 (hm.1 hkn), fun hkn => hb.2 (hm.2 hkn)⟩
      | error e =>
          rw [hp] at h
          injection h with h1 h2
          exact Except.noConfusion h2
theorem known_or_mono (tx built : VersionedTransaction) (t : String) (k : ItemKey)
    (hm : (knownInItems tx t k = true → knownInItems built t k = true) ∧
      (knownInEffects tx t k = true → knownInEffects built t k = true))
    (h : (knownInItems tx t k || knownInEffects tx t k) = true) :
    (knownInItems built t k || knownInEffects built t k) = true := by
  rcases Bool.or_eq_true_iff.mp h with h1 | h1
  · exact Bool.or_eq_true_iff.mpr (Or.inl (hm.1 h1))
  · exact Bool.or_eq_true_iff.mpr (Or.inr (hm.2 h1))

theorem interp_ok_trace_known (p : Prog) : ∀ (tx : VersionedTransaction)
    (tr : List (String × ItemKey)) (built : VersionedTransaction),
    interp p tx = (tr, .ok built) → ∀ (t : String) (k : ItemKey),
    (t, k) ∈ tr → (knownInItems built t k || knownInEffects built t k) = true := by
  induction p with
  | done =>
      intro tx tr built h t k hmem
      injection h with h1 h2
      subst h1
      cases hmem
  | getThen t0 k0 cont ih =>
      intro tx tr built h t k hmem
      rw [interp] at h
      cases hg : get tx t0 k0 with
      | ok v =>
          rw [hg] at h
          dsimp only at h
          injection h with h1 h2
          subst h1
          have hrun : interp (cont v) tx = ((interp (cont v) tx).1, .ok built) := by
            rw [← h2]
          rcases List.mem_cons.mp hmem with hhd | htl
          · injection hhd with hh1 hh2
            subst hh1; subst hh2
            exact known_or_mono tx built t k
              (interp_ok_mono (cont v) tx _ built hrun t k)
              (get_ok_known tx t k v hg)
          · exact ih v tx _ built hrun t k htl
      | error e =>
          rw [hg] at h
          injection h with h1 h2
          exact Except.noConfusion h2
  | requireThen t0 k0 cont ih =>
      intro tx tr built h t k hmem
      rw [interp] at h
      cases hg : require tx t0 k0 with
      | ok v =>
          rw [hg] at h
          dsimp only at h
          injection h with h1 h2
          subst h1
          have hrun : interp (cont v) tx = ((interp (cont v) tx).1, .ok built) := by
            rw [← h2]
          rcases List.mem_cons.mp hmem with hhd | htl
          · injection hhd with hh1 hh2
            subst hh1; subst hh2
            exact known_or_mono tx built t k
              (interp_ok_mono (cont v) tx _ built hrun t k)
              (get_ok_known tx t k (some v) (require_ok_get tx t k v hg))
          · exact ih v tx _ built hrun t k htl
      | error e =>
          rw [hg] at h
          injection h with h1 h2
          exact Except.noConfusion h2
  | putThen t0 item next ih =>
      intro tx tr built h t k hmem
      dsimp only [interp] at h
      cases hp : put tx t0 item with
      | ok tx2 => rw [hp] at h; exact ih tx2 tr built h t k hmem
      | error e =>
          rw [hp] at h
          injection h with h1 h2
          exact Except.noConfusion h2
  | deleteThen t0 k0 next ih =>
      intro tx tr built h t k hmem
      dsimp only [interp] at h
      cases hp : delete tx t0 k0 with
      | ok tx2 => rw [hp] at h; exact ih tx2 tr built h t k hmem
      | error e =>
          rw [hp] at h
          injection h with h1 h2
          exact Except.noConfusion h2
  | presumeThen t0 k0 v next ih =>
      intro tx tr built h t k hmem
      dsimp only [interp] at h
      cases hp : presume tx t0 k0 v with
      | ok tx2 => rw [hp] at h; exact ih tx2 tr built h t k hmem
      | error e =>
          rw [hp] at h
          injection h with h1 h2
          exact Except.noConfusion h2
  | defineTableThen t0 attrs next ih =>
      intro tx tr built h t k hmem
      dsimp only [interp] at h
      cases hp : define_table tx t0 attrs with
      | ok tx2 => rw [hp] at h; exact ih tx2 tr built h t k hmem
      | error e =>
          rw [hp] at h
          injection h with h1 h2
          exact Except.noConfusion h2
/-- A pure builder program whose `get`/`require` keys all come from the finite
list `K` — the claim's "only ever reads keys from a finite set". -/
inductive ReadsFrom (K : List (String × ItemKey)) : Prog → Prop where
  | done : ReadsFrom K .done
  | getThen (t : String) (k : ItemKey) (cont : Option Item → Prog)
      (hmem : (t, k) ∈ K) (hcont : ∀ v, ReadsFrom K (cont v)) :
      ReadsFrom K (.getThen t k cont)
  | requireThen (t : String) (k : ItemKey) (cont : Item → Prog)
      (hmem : (t, k) ∈ K) (hcont : ∀ v, ReadsFrom K (cont v)) :
      ReadsFrom K (.requireThen t k cont)
  | putThen (t : String) (item : Item) (next : Prog) (hnext : ReadsFrom K next) :
      ReadsFrom K (.putThen t item next)
  | deleteThen (t : String) (k : ItemKey) (next : Prog) (hnext : ReadsFrom K next) :
      ReadsFrom K (.deleteThen t k next)
  | presumeThen (t : String) (k : ItemKey) (v : Option Item) (next : Prog)
      (hnext : ReadsFrom K next) : ReadsFrom K (.presumeThen t k v next)
  | defineTableThen (t : String) (attrs : List String) (next : Prog)
      (hnext : ReadsFrom K next) : ReadsFrom K (.defineTableThen t attrs next)

theorem notknown_back (tx tx2 : VersionedTransaction) (t : String) (k : ItemKey)
    (hm : (knownInItems tx t k = true → knownInItems tx2 t k = true) ∧
      (knownInEffects tx t k = true → knownInEffects tx2 t k = true))
    (h : (knownInItems tx2 t k || knownInEffects tx2 t k) = false) :
    (knownInItems tx t k || knownInEffects tx t k) = false := by
  by_cases hor : (knownInItems tx t k || knownInEffects tx t k) = true
  · rw [known_or_mono tx tx2 t k hm hor] at h
    cases h
  · exact Bool.not_eq_true _ ▸ Bool.of_not_eq_true hor

theorem interp_throw_reads (K : List (String × ItemKey)) (p : Prog)
    (hR : ReadsFrom K p) : ∀ (tx : VersionedTransaction)
    (tr : List (String × ItemKey)) (t : String) (k : ItemKey),
    interp p tx = (tr, .error (.itemUndefined t k)) →
    (t, k) ∈ K ∧ (knownInItems tx t k || knownInEffects tx t k) = false := by
  induction hR with
  | done =>
      intro tx tr t k h
      injection h with h1 h2
      exact Except.noConfusion h2
  | getThen t0 k0 cont hmem hcont ih =>
      intro tx tr t k h
      rw [interp] at h
      cases hg : get tx t0 k0 with
      | ok v =>
          rw [hg] at h
          dsimp only at h
          injection h with h1 h2
          exact ih v tx (interp (cont v) tx).1 t k (by rw [← h2])
      | error e =>
          rw [hg] at h
          injection h with h1 h2
          injection h2 with h3
          subst h3
          obtain ⟨ht, hk, hnot⟩ := get_undefined_shape tx t0 k0 t k hg
          subst ht; subst hk
          exact ⟨hmem, hnot⟩
  | requireThen t0 k0 cont hmem hcont ih =>
      intro tx tr t k h
      rw [interp] at h
      cases hg : require tx t0 k0 with
      | ok v =>
          rw [hg] at h
          dsimp only at h
          injection h with h1 h2
          exact ih v tx (interp (cont v) tx).1 t k (by rw [← h2])
      | error e =>
          rw [hg] at h
          injection h with h1 h2
          injection h2 with h3
          subst h3
          obtain ⟨ht, hk, hnot⟩ :=
            get_undefined_shape tx t0 k0 t k (require_undefined_get tx t0 k0 t k hg)
          subst ht; subst hk
          exact ⟨hmem, hnot⟩
  | putThen t0 item next hnext ih =>
      intro tx tr t k h
      dsimp only [interp] at h
      cases hp : put tx t0 item with
      | ok tx2 =>
          rw [hp] at h
          obtain ⟨hmem, hnot⟩ := ih tx2 tr t k h
          exact ⟨hmem, notknown_back tx tx2 t k
            (_write_mono_known tx t0 (.put (dynamodb_prewrite item)) tx2 hp t k) hnot⟩
      | error e =>
          rw [hp] at h
          injection h with h1 h2
          injection h2 with h3
          rcases _write_error_cases tx t0 (.put (dynamodb_prewrite item)) e hp with
            he | he | he <;> (rw [he] at h3; exact BuildErr.noConfusion h3)
  | deleteThen t0 k0 next hnext ih =>
      intro tx tr t k h
      dsimp only [interp] at h
      cases hp : delete tx t0 k0 with
      | ok tx2 =>
          rw [hp] at h
          obtain ⟨hmem, hnot⟩ := ih tx2 tr t k h
          exact ⟨hmem, notknown_back tx tx2 t k
            (_write_mono_known tx t0 (.delete k0) tx2 hp t k) hnot⟩
      | error e =>
          rw [hp] at h
          injection h with h1 h2
          injection h2 with h3
          rcases _write_error_cases tx t0 (.delete k0) e hp with
            he | he | he <;> (rw [he] at h3; exact BuildErr.noConfusion h3)
  | presumeThen t0 k0 v next hnext ih =>
      intro tx tr t k h
      dsimp only [interp] at h
      cases hp : presume tx t0 k0 v with
      | ok tx2 =>
          rw [hp] at h
          obtain ⟨hmem, hnot⟩ := ih tx2 tr t k h
          exact ⟨hmem, notknown_back tx tx2 t k
            (presume_mono_known tx t0 k0 v tx2 hp t k) hnot⟩
      | error e =>
          rw [hp] at h
          injection h with h1 h2
          injection h2 with h3
          rcases presume_error_cases tx t0 k0 v e hp with he | he <;>
            (rw [he] at h3; exact BuildErr.noConfusion h3)
  | defineTableThen t0 attrs next hnext ih =>
      intro tx tr t k h
      dsimp only [interp] at h
      cases hp : define_table tx t0 attrs with
      | ok tx2 =>
          rw [hp] at h
          obtain ⟨hmem, hnot⟩ := ih tx2 tr t k h
          exact ⟨hmem, notknown_back tx tx2 t k
            (define_table_mono_known tx t0 attrs tx2 hp t k) hnot⟩
      | error e =>
          rw [hp] at h
          injection h with h1 h2
          injection h2 with h3
          rw [define_table_error_cases tx t0 attrs e hp] at h3
          exact BuildErr.noConfusion h3
theorem alookup_filter {β : Type v} (l : List (String × β)) (p : String × β → Bool)
    (t : String) (x : β) (h : alookup l t = some x) (hp : p (t, x) = true) :
    alookup (l.filter p) t = some x := by
  induction l with
  | nil => cases h
  | cons hd tl ih =>
      obtain ⟨k', v'⟩ := hd
      simp only [alookup] at h
      by_cases hk : k' = t
      · rw [if_pos hk] at h
        injection h with h2
        subst hk; subst h2
        simp [List.filter, hp, alookup]
      · rw [if_neg hk] at h
        simp only [List.filter]
        cases hph : p (k', v') with
        | true => simp only [alookup]; rw [if_neg hk]; exact ih h
        | false => exact ih h

theorem _dedupe_validate_mem (ks : List ItemKey) :
    ∀ (expected : Finset String) (seen ksd : List ItemKey),
    _dedupe_validate expected seen ks = some ksd →
    ∀ k ∈ ks, k ∈ ksd ∨ k ∈ seen := by
  induction ks with
  | nil => intro _ _ _ _ k hk; cases hk
  | cons k0 rest ih =>
      intro expected seen ksd h k hk
      rw [_dedupe_validate] at h
      by_cases hexp : expected ≠ ∅
      · rw [if_pos hexp] at h
        by_cases hattr : (k0.map Prod.fst).toFinset = expected
        · rw [if_pos hattr] at h
          by_cases hseen : seen.contains k0 = true
          · rw [if_pos hseen] at h
            rcases List.mem_cons.mp hk with rfl | hkr
            · exact Or.inr (List.mem_of_elem_eq_true hseen)
            · exact ih expected seen ksd h k hkr
          · rw [if_neg hseen] at h
            cases hrec : _dedupe_validate expected (k0 :: seen) rest with
            | none => rw [hrec] at h; cases h
            | some ksd0 =>
                rw [hrec] at h
                injection h with h2
                subst h2
                rcases List.mem_cons.mp hk with rfl | hkr
                · exact Or.inl (List.mem_cons_self ..)
                · rcases ih expected (k0 :: seen) ksd0 hrec k hkr with hin | hin
                  · exact Or.inl (List.mem_cons_of_mem _ hin)
                  · rcases List.mem_cons.mp hin with rfl | hin
                    · exact Or.inl (List.mem_cons_self ..)
                    · exact Or.inr hin
        · rw [if_neg hattr] at h; cases h
      · rw [if_neg hexp] at h
        by_cases hseen : seen.contains k0 = true
        · rw [if_pos hseen] at h
          rcases List.mem_cons.mp hk with rfl | hkr
          · exact Or.inr (List.mem_of_elem_eq_true hseen)
          · exact ih _ seen ksd h k hkr
        · rw [if_neg hseen] at h
          cases hrec : _dedupe_validate ((k0.map Prod.fst).toFinset) (k0 :: seen) rest with
          | none => rw [hrec] at h; cases h
          | some ksd0 =>
              rw [hrec] at h
              injection h with h2
              subst h2
              rcases List.mem_cons.mp hk with rfl | hkr
              · exact Or.inl (List.mem_cons_self ..)
              · rcases ih _ (k0 :: seen) ksd0 hrec k hkr with hin | hin
                · exact Or.inl (List.mem_cons_of_mem _ hin)
                · rcases List.mem_cons.mp hin with rfl | hin
                  · exact Or.inl (List.mem_cons_self ..)
                  · exact Or.inr hin

theorem mapMO_forall2 {α : Type u} {β : Type v} (f : α → Option β) :
    ∀ (xs : List α) (ys : List β), mapMO f xs = some ys →
    List.Forall₂ (fun a b => f a = some b) xs ys := by
  intro xs
  induction xs with
  | nil =>
      intro ys h
      injection h with h2
      subst h2
      exact List.Forall₂.nil
  | cons a as ih =>
      intro ys h
      rw [mapMO] at h
      cases hfa : f a with
      | none => rw [hfa] at h; cases h
      | some b =>
          rw [hfa] at h
          cases hrest : mapMO f as with
          | none => rw [hrest] at h; cases h
          | some bs =>
              rw [hrest] at h
              injection h with h2
              subst h2
              exact List.Forall₂.cons hfa (ih bs hrest)

theorem forall2_alookup {α : Type u} {β : Type v}
    (R : (String × α) → (String × β) → Prop)
    (hfst : ∀ a b, R a b → b.1 = a.1) :
    ∀ (l : List (String × α)) (l2 : List (String × β)), List.Forall₂ R l l2 →
    ∀ (t : String) (x : α), alookup l t = some x →
    ∃ y, alookup l2 t = some y ∧ R (t, x) (t, y) := by
  intro l l2 hf
  induction hf with
  | nil => intro t x h; cases h
  | cons hab hrest ih =>
      intro t x h
      rename_i a b as bs
      obtain ⟨a1, a2⟩ := a
      obtain ⟨b1, b2⟩ := b
      have hb1 : b1 = a1 := hfst _ _ hab
      simp only [alookup] at h ⊢
      by_cases ht : a1 = t
      · rw [if_pos ht] at h
        injection h with h2
        subst ht; subst h2; subst hb1
        exact ⟨b2, by rw [if_pos rfl], hab⟩
      · rw [if_neg ht] at h
        obtain ⟨y, hy, hr⟩ := ih t x h
        refine ⟨y, ?_, hr⟩
        rw [hb1, if_neg ht]
        exact hy
/-- A key counts as requested when the request's entry for its table lists it. -/
def requested (req : List (String × List ItemKey)) (t : String) (k : ItemKey) : Bool :=
  match alookup req t with
  | some ks => ks.contains k
  | none => false

theorem dedupFirstAux_mem {α : Type u} [DecidableEq α] (l : List α) :
    ∀ (seen : List α) (a : α), a ∈ l → a ∈ dedupFirstAux seen l ∨ a ∈ seen := by
  induction l with
  | nil => intro _ _ h; cases h
  | cons b rest ih =>
      intro seen a ha
      rw [dedupFirstAux]
      by_cases hb : seen.contains b = true
      · rw [if_pos hb]
        rcases List.mem_cons.mp ha with rfl | har
        · exact Or.inr (List.mem_of_elem_eq_true hb)
        · exact ih seen a har
      · rw [if_neg hb]
        rcases List.mem_cons.mp ha with rfl | har
        · exact Or.inl (List.mem_cons_self ..)
        · rcases ih (b :: seen) a har with hin | hin
          · exact Or.inl (List.mem_cons_of_mem _ hin)
          · rcases List.mem_cons.mp hin with rfl | hin
            · exact Or.inl (List.mem_cons_self ..)
            · exact Or.inr hin

theorem dedupFirst_mem {α : Type u} [DecidableEq α] (l : List α) (a : α)
    (h : a ∈ l) : a ∈ dedupFirst l := by
  rcases dedupFirstAux_mem l [] a h with hin | hin
  · exact hin
  · cases hin

theorem hasKey_map_mk (l : List HashableItemKey) (g : HashableItemKey → Option Item)
    (hk : HashableItemKey) (h : hk ∈ l) :
    hasKey (l.map (fun h0 => (h0, g h0))) hk = true := by
  induction l with
  | nil => cases h
  | cons h0 rest ih =>
      simp only [List.map, hasKey, alookup]
      by_cases he : h0 = hk
      · rw [if_pos he]; rfl
      · rw [if_neg he]
        rcases List.mem_cons.mp h with rfl | hr
        · exact absurd rfl he
        · exact ih hr

theorem requested_known (req preq : List (String × List ItemKey))
    (store : String → HashableItemKey → Option Item)
    (clean : VersionedTransaction) (t : String) (k : ItemKey)
    (hparse : parse_batch_get_request req = some preq)
    (hprep : prepare_clean_transaction preq (model_batch_get store preq) = some clean)
    (hreq : requested req t k = true) :
    knownInItems clean t k = true := by
  unfold requested at hreq
  cases hl : alookup req t with
  | none => rw [hl] at hreq; cases hreq
  | some ks =>
      rw [hl] at hreq
      have hkmem : k ∈ ks := List.mem_of_elem_eq_true hreq
      have hksne : ks ≠ [] := by
        intro he; subst he; cases hkmem
      have hfl : alookup (req.filter (fun te => te.2 ≠ [])) t = some ks :=
        alookup_filter req _ t ks hl (decide_eq_true hksne)
      rw [parse_batch_get_request] at hparse
      have hf2 := mapMO_forall2 _ _ _ hparse
      obtain ⟨y, hlook2, hRy⟩ := forall2_alookup _
        (by
          intro a b hab
          cases hd : _dedupe_validate ∅ [] a.2 with
          | none => rw [hd] at hab; cases hab
          | some ksd =>
              rw [hd] at hab
              injection hab with h2
              rw [← h2])
        _ _ hf2 t ks hfl
      have hded : _dedupe_validate ∅ [] ks = some y := by
        cases hd : _dedupe_validate ∅ [] ks with
        | none => rw [hd] at hRy; cases hRy
        | some ksd =>
            rw [hd] at hRy
            injection hRy with h2
            injection h2 with h3 h4
            rw [h4]
      have hky : k ∈ y := by
        rcases _dedupe_validate_mem ks ∅ [] y hded k hkmem with hin | hin
        · exact hin
        · cases hin
      rw [prepare_clean_transaction] at hprep
      cases hmo : mapMO (fun te =>
          match _extract_key_attributes te.2 with
          | none => none
          | some ka =>
            match alookup (model_batch_get store preq) te.1 with
            | none => none
            | some items =>
              (items_and_keys_to_clean_table_data ka te.2 items).map
                (fun td => (te.1, td))) preq with
      | none => rw [hmo] at hprep; cases hprep
      | some tbls =>
          rw [hmo] at hprep
          injection hprep with h2
          subst h2
          have hf3 := mapMO_forall2 _ _ _ hmo
          obtain ⟨td, htb, hg⟩ := forall2_alookup _
            (by
              intro a b hab
              cases he : _extract_key_attributes a.2 with
              | none => rw [he] at hab; cases hab
              | some ka =>
                  rw [he] at hab
                  dsimp only at hab
                  cases hr : alookup (model_batch_get store preq) a.1 with
                  | none => rw [hr] at hab; cases hab
                  | some items =>
                      rw [hr] at hab
                      dsimp only at hab
                      cases hiak : items_and_keys_to_clean_table_data ka a.2 items with
                      | none => rw [hiak] at hab; cases hab
                      | some td0 =>
                          rw [hiak] at hab
                          injection hab with h2
                          rw [← h2])
            _ _ hf3 t y hlook2
          cases hext : _extract_key_attributes y with
          | none => rw [hext] at hg; cases hg
          | some ka =>
              rw [hext] at hg
              dsimp only at hg
              cases hresp : alookup (model_batch_get store preq) t with
              | none => rw [hresp] at hg; cases hg
              | some items =>
                  rw [hresp] at hg
                  dsimp only at hg
                  cases hiak : items_and_keys_to_clean_table_data ka y items with
                  | none => rw [hiak] at hg; cases hg
                  | some td0 =>
                      rw [hiak] at hg
                      injection hg with h2
                      injection h2 with h3 h4
                      subst h4
                      rw [items_and_keys_to_clean_table_data] at hiak
                      cases hkh : mapMO hashable_key y with
                      | none => rw [hkh] at hiak; cases hiak
                      | some khks =>
                          rw [hkh] at hiak
                          cases hih : mapMO (fun it =>
                              (key_from_item ka it).bind hashable_key) items with
                          | none => rw [hih] at hiak; cases hiak
                          | some ihks =>
                              rw [hih] at hiak
                              dsimp only at hiak
                              injection hiak with h5
                              obtain ⟨hk, hhk, hkmem2⟩ := mapMO_mem hashable_key hkh hky
                              unfold knownInItems
                              rw [htb, hhk]
                              rw [← h5]
                              exact hasKey_map_mk _ _ hk
                                (dedupFirst_mem _ hk (List.mem_append_left _ hkmem2))
theorem requested_add_item_self (req : List (String × List ItemKey))
    (t : String) (k : ItemKey) :
    requested (add_item_to_base_request req (t, k)) t k = true := by
  unfold requested add_item_to_base_request
  cases hl : alookup req (t, k).1 with
  | none =>
      simp only [alookup_pyInsert_self]
      simp
  | some ks =>
      simp only [alookup_pyInsert_self]
      simp

theorem requested_add_item_mono (req : List (String × List ItemKey))
    (t : String) (k : ItemKey) (t' : String) (k' : ItemKey)
    (h : requested req t' k' = true) :
    requested (add_item_to_base_request req (t, k)) t' k' = true := by
  unfold requested at h
  cases hl : alookup req t' with
  | none => rw [hl] at h; cases h
  | some ks =>
      rw [hl] at h
      by_cases ht : t' = t
      · subst ht
        unfold requested add_item_to_base_request
        rw [hl]
        simp only [alookup_pyInsert_self]
        exact List.elem_eq_true_of_mem
          (List.mem_append_left _ (List.mem_of_elem_eq_true h))
      · unfold requested add_item_to_base_request
        cases hl2 : alookup req (t, k).1 with
        | none =>
            rw [alookup_pyInsert_ne _ _ _ _ ht, hl]
            exact h
        | some ks2 =>
            rw [alookup_pyInsert_ne _ _ _ _ ht, hl]
            exact h

/-- The driver's termination measure: the keys of the finite read universe
not yet present in the batch-get request. -/
def lazyMeasure (K : List (String × ItemKey))
    (req : List (String × List ItemKey)) : ℕ :=
  (K.toFinset.filter (fun tk => requested req tk.1 tk.2 = false)).card

theorem lazyMeasure_add_item_lt (K : List (String × ItemKey))
    (req : List (String × List ItemKey)) (t : String) (k : ItemKey)
    (hmem : (t, k) ∈ K) (hreq : requested req t k = false) :
    lazyMeasure K (add_item_to_base_request req (t, k)) < lazyMeasure K req := by
  unfold lazyMeasure
  have hsub : K.toFinset.filter
      (fun tk => requested (add_item_to_base_request req (t, k)) tk.1 tk.2 = false) ⊆
      K.toFinset.filter (fun tk => requested req tk.1 tk.2 = false) := by
    intro tk htk
    obtain ⟨hK, hreq'⟩ := Finset.mem_filter.mp htk
    refine Finset.mem_filter.mpr ⟨hK, ?_⟩
    by_cases hr : requested req tk.1 tk.2 = true
    · rw [requested_add_item_mono req t k tk.1 tk.2 hr] at hreq'
      cases hreq'
    · exact Bool.not_eq_true _ ▸ Bool.of_not_eq_true hr
  refine Finset.card_lt_card ((Finset.ssubset_iff_of_subset hsub).mpr
    ⟨(t, k), ?_, ?_⟩)
  · exact Finset.mem_filter.mpr ⟨List.mem_toFinset.mpr hmem, hreq⟩
  · intro hcontra
    obtain ⟨_, hfalse⟩ := Finset.mem_filter.mp hcontra
    rw [requested_add_item_self req t k] at hfalse
    cases hfalse
/-- C9: amended.  For a pure builder whose `get`/`require` keys all come from
the finite list `K`, the lazy driver terminates once given fuel exceeding the
number of `K`-keys not yet in the base request (each restart adds a key it did
not have, strictly shrinking that count); and on success every key the builder
attempted to `get`/`require` is known to the returned *built* transaction (in
its items or its effects).  The original claim's stronger guarantee — that the
returned *seed* transaction's keys are a superset of the attempted reads — is
refuted separately by the recorded counterexample. -/
theorem lazy_build_converges (p : Prog) (K : List (String × ItemKey))
    (store : String → HashableItemKey → Option Item)
    (req : List (String × List ItemKey)) (fuel : ℕ)
    (hR : ReadsFrom K p) (hfuel : lazyMeasure K req < fuel) :
    ∃ out, _lazy_loading_transaction_builder p store req fuel = some out ∧
      ∀ clean built trace, out = LazyOutcome.ok clean built trace →
        ∀ t k, (t, k) ∈ trace →
          (knownInItems built t k || knownInEffects built t k) = true := by
  induction fuel generalizing req with
  | zero => exact absurd hfuel (Nat.not_lt_zero _)
  | succ fuel ih =>
      rw [_lazy_loading_transaction_builder]
      cases hparse : parse_batch_get_request req with
      | none =>
          refine ⟨.prepareCrash, rfl, ?_⟩
          intro clean built trace heq
          exact LazyOutcome.noConfusion heq
      | some preq =>
          dsimp only
          cases hprep : prepare_clean_transaction preq (model_batch_get store preq) with
          | none =>
              refine ⟨.prepareCrash, rfl, ?_⟩
              intro clean built trace heq
              exact LazyOutcome.noConfusion heq
          | some clean =>
              dsimp only
              cases hi : interp p clean with
              | mk tr r =>
                  cases r with
                  | ok built =>
                      refine ⟨.ok clean built tr, rfl, ?_⟩
                      intro clean' built' trace' heq
                      injection heq with h1 h2 h3
                      subst h1; subst h2; subst h3
                      exact interp_ok_trace_known p clean tr built hi
                  | error e =>
                      cases e with
                      | itemUndefined t k =>
                          dsimp only
                          by_cases hke : k = []
                          · rw [if_pos hke]
                            refine ⟨.prepareCrash, rfl, ?_⟩
                            intro clean' built' trace' heq
                            exact LazyOutcome.noConfusion heq
                          · rw [if_neg hke]
                            obtain ⟨hmemK, hnotknown⟩ :=
                              interp_throw_reads K p hR clean tr t k hi
                            have hnotitems : knownInItems clean t k = false :=
                              (Bool.or_eq_false_iff.mp hnotknown).1
                            have hreqf : requested req t k = false := by
                              by_cases hr : requested req t k = true
                              · rw [requested_known req preq store clean t k
                                  hparse hprep hr] at hnotitems
                                cases hnotitems
                              · exact Bool.not_eq_true _ ▸ Bool.of_not_eq_true hr
                            have hlt := lazyMeasure_add_item_lt K req t k hmemK hreqf
                            exact ih (add_item_to_base_request req (t, k)) (by omega)
                      | itemNotFound t k =>
                          refine ⟨.builderErr (.itemNotFound t k), rfl, ?_⟩
                          intro clean' built' trace' heq
                          exact LazyOutcome.noConfusion heq
                      | tableSchemaUnknown =>
                          refine ⟨.builderErr .tableSchemaUnknown, rfl, ?_⟩
                          intro clean' built' trace' heq
                          exact LazyOutcome.noConfusion heq
                      | keyError =>
                          refine ⟨.builderErr .keyError, rfl, ?_⟩
                          intro clean' built' trace' heq
                          exact LazyOutcome.noConfusion heq
                      | assertionError =>
                          refine ⟨.builderErr .assertionError, rfl, ?_⟩
                          intro clean' built' trace' heq
                          exact LazyOutcome.noConfusion heq
/-- A builder that defines the table schema, optimistically puts `itemA`
without fetching it, then reads its key back. -/
def progC9 : Prog :=
  .defineTableThen "T" ["id"] (.putThen "T" itemA (.getThen "T" keyA (fun _ => .done)))

/-- Counterexample to C9 as stated: on `progC9` over the empty store the
driver returns after one attempt with an empty seed (clean) transaction —
the `get` of `keyA` was satisfied by the pending put effect, so the driver
never fetched it — yet the builder did attempt to read `("T", keyA)`.  The
returned seed transaction's keys are therefore not a superset of the keys
the builder attempted to `get`. -/
theorem lazy_seed_not_superset_of_reads :
    _lazy_loading_transaction_builder progC9 storeEmpty [] 1 =
      some (.ok ⟨[]⟩ builtC2 [("T", keyA)]) ∧
    knownInItems ⟨[]⟩ "T" keyA = false ∧
    knownInEffects ⟨[]⟩ "T" keyA = false := by
  refine ⟨?_, ?_, ?_⟩ <;> decide

theorem lazy_build_converges_witness :
    ∃ out, _lazy_loading_transaction_builder progGet storeEmpty [] 2 = some out ∧
      ∀ clean built trace, out = LazyOutcome.ok clean built trace →
        ∀ t k, (t, k) ∈ trace →
          (knownInItems built t k || knownInEffects built t k) = true :=
  lazy_build_converges progGet [("T", keyA)] storeEmpty [] 2
    (ReadsFrom.getThen "T" keyA _ (by decide) (fun _ => ReadsFrom.done))
    (by decide)

end Xoto3
